import Mathlib

/-
  Verification development for the completion engine of a POSIX-like shell
  (src/complete.cpp).

  Modelling conventions:
  * wide strings (wcstring / const wchar_t *) are modelled as `List Char`.
    C wide strings are NUL-terminated, so a string value never contains an
    embedded NUL character; the NUL character (`nulChar`) appears only as the
    "no short option" sentinel of the `short_opt` field, exactly as in the C
    code where `short_opt == L'\0'` means "absent".
  * `const wchar_t *` parameters that may be the null pointer are modelled as
    `Option (List Char)` with `none` for the null pointer.
  * The presentation-flag bitset `complete_flags_t` is declared in complete.h,
    which is not part of the sources; its individual bit values are therefore
    modelled (from the spec, section 3) as a record of booleans, one per named
    flag.  All bitwise operations of complete.cpp on these flags translate to
    field updates.
  * The `result_mode` bitset is kept as a `Nat`: its bit values are pinned by
    the sources themselves (complete_print indexes an array of four mode
    strings with `result_mode`, so NO_FILES = 1, NO_COMMON = 2,
    EXCLUSIVE = 3).
  * External collaborators (wildcard_match, path_get_path, exec_subshell,
    string_fuzzy_match_string, expand_escape_variable, the args evaluator
    behind complete_from_args) are taken as oracle parameters; calls into them
    are recorded as events where the call itself matters.
-/

/-- Wide strings of the modelled program. -/
abbrev WStr := List Char

/-- The NUL wide character, used by complete.cpp as the "no short option"
sentinel. -/
def nulChar : Char := Char.ofNat 0

/-- Single-quote character (kept out of string literals). -/
def quoteChar : Char := Char.ofNat 39

/-- Backslash character. -/
def bslashChar : Char := Char.ofNat 92

/-- Newline character. -/
def nlChar : Char := Char.ofNat 10

/-- NO_FILES bit of `result_mode` (value pinned by the `modestr` indexing in
`complete_print`). -/
def NO_FILES : Nat := 1

/-- NO_COMMON bit of `result_mode` (value pinned by the `modestr` indexing in
`complete_print`). -/
def NO_COMMON : Nat := 2

/-- Modelled from the spec: the presentation-flag bitset `complete_flags_t`
declared in complete.h (not in the sources).  One boolean per named flag of
spec section 3. -/
structure complete_flags_t where
  replaces_token : Bool := false
  no_space : Bool := false
  auto_space : Bool := false
  dont_escape : Bool := false
  dont_sort : Bool := false
deriving DecidableEq, Repr

/-- The all-clear flag value (`complete_flags_t flags = 0` in C). -/
def default_flags : complete_flags_t := {}

/-- Modelled from the spec: the fuzzy-match kind enumeration of common.h (not
in the sources); spec section 3 lists the seven kinds. -/
inductive fuzzy_match_type_t
  | exact
  | prefixMatch
  | substring
  | subsequence
  | exactCaseInsensitive
  | prefixMatchCaseInsensitive
  | noMatch
deriving DecidableEq, Repr

/-- Modelled from the spec: the fuzzy match descriptor `string_fuzzy_match_t`
of common.h (not in the sources); only the kind is relevant here. -/
structure string_fuzzy_match_t where
  typ : fuzzy_match_type_t
deriving DecidableEq, Repr

/-- Modelled from the spec: `match_type_requires_full_replacement` of common.h
(not in the sources); per spec section 4.5, match kinds other than exact and
plain-prefix force the candidate to replace the whole token. -/
def match_type_requires_full_replacement : fuzzy_match_type_t → Bool
  | .exact => false
  | .prefixMatch => false
  | _ => true

/-- Default `match` argument of `append_completion` (an exact match). -/
def fuzzy_exact_match : string_fuzzy_match_t := ⟨.exact⟩

/-- A completion candidate (`completion_t`).  The C field `match` is renamed
`match_info` (`match` is a Lean keyword). -/
structure completion_t where
  completion : WStr
  description : WStr
  match_info : string_fuzzy_match_t
  flags : complete_flags_t
deriving DecidableEq, Repr

/-- The suffix characters that turn AUTO_SPACE into NO_SPACE
(`wcschr(L"/=@:", ...)` in `resolve_auto_space`; with NUL-free strings the
terminator case of wcschr cannot arise). -/
def auto_space_last_chars : List Char := ['/', '=', '@', ':']

/-- `resolve_auto_space` of complete.cpp: clear COMPLETE_AUTO_SPACE and set
COMPLETE_NO_SPACE when the completion text ends in one of `/ = @ :`. -/
def resolve_auto_space (comp : WStr) (flags : complete_flags_t) : complete_flags_t :=
  if flags.auto_space then
    let flags2 := { flags with auto_space := false }
    match comp.getLast? with
    | some c => if c ∈ auto_space_last_chars then { flags2 with no_space := true } else flags2
    | none => flags2
  else flags

/-- The `completion_t` constructor: note that it resolves flags. -/
def completion_mk (comp desc : WStr) (mat : string_fuzzy_match_t)
    (flags : complete_flags_t) : completion_t :=
  { completion := comp, description := desc, match_info := mat,
    flags := resolve_auto_space comp flags }

/-- `append_completion` of complete.cpp: push a stub candidate constructed
from pre-resolved flags (the constructor then re-resolves against the empty
string, a no-op), and fill in text and description afterwards. -/
def append_completion (completions : List completion_t) (comp desc : WStr)
    (flags : complete_flags_t) (mat : string_fuzzy_match_t) : List completion_t :=
  let stub := completion_mk [] [] mat (resolve_auto_space comp flags)
  completions ++ [{ stub with completion := comp, description := desc }]

/-- Association lookup in the session condition cache (std::map keyed by the
condition source). -/
def cache_lookup : List (WStr × Bool) → WStr → Option Bool
  | [], _ => none
  | p :: rest, s => if p.1 = s then some p.2 else cache_lookup rest s

/-- `completer_t::condition_test`: empty source is true; autosuggest mode is
false without any subshell; otherwise the memoized result of executing the
source as a subshell.  `exec_res` is the subshell oracle
(`0 == exec_subshell(...)`).  Returns the result, the updated cache, and the
list of subshell invocations this call performed. -/
def condition_test (autosuggest : Bool) (exec_res : WStr → Bool)
    (cache : List (WStr × Bool)) (cond : WStr) :
    Bool × List (WStr × Bool) × List WStr :=
  if cond = [] then (true, cache, [])
  else if autosuggest then (false, cache, [])
  else
    match cache_lookup cache cond with
    | some b => (b, cache, [])
    | none => (exec_res cond, cache ++ [(cond, exec_res cond)], [cond])

/-- Run a session's sequence of `condition_test` calls, threading the cache
and concatenating the subshell-invocation log. -/
def run_conditions (autosuggest : Bool) (exec_res : WStr → Bool) :
    List WStr → List (WStr × Bool) → (List Bool × List (WStr × Bool) × List WStr)
  | [], cache => ([], cache, [])
  | c :: rest, cache =>
    let r := condition_test autosuggest exec_res cache c
    let t := run_conditions autosuggest exec_res rest r.2.1
    (r.1 :: t.1, t.2.1, r.2.2 ++ t.2.2)

/-- A completion option entry (`complete_entry_opt_t`).  `short_opt` uses
`nulChar` as the "absent" sentinel, exactly as the C `wchar_t` field. -/
structure complete_entry_opt_t where
  short_opt : Char
  long_opt : WStr
  comp : WStr
  desc : WStr
  condition : WStr
  result_mode : Nat
  old_mode : Bool
  flags : complete_flags_t
deriving DecidableEq, Repr

/-- A per-command completion schema (`completion_entry_t`).  The option list
is kept newest-first (options are pushed at the front by `add_option`). -/
structure completion_entry_t where
  cmd : WStr
  cmd_is_path : Bool
  authoritative : Bool
  order : Nat
  short_opt_str : WStr
  options : List complete_entry_opt_t
deriving DecidableEq, Repr

/-- Key equality of the schema set's comparer (`completion_entry_set_comparer`
treats two entries as equivalent iff they agree on `cmd_is_path` and `cmd`). -/
def key_match (e : completion_entry_t) (cmd : WStr) (p : Bool) : Bool :=
  e.cmd_is_path == p && e.cmd == cmd

/-- Numeric (code-unit) lexicographic order on wide strings, as used by
`wcstring::operator<` in the set comparer. -/
def wchar_lt : WStr → WStr → Bool
  | [], [] => false
  | [], _ :: _ => true
  | _ :: _, [] => false
  | a :: as, b :: bs =>
    if a.toNat < b.toNat then true
    else if b.toNat < a.toNat then false
    else wchar_lt as bs

/-- The strict order of `completion_entry_set_comparer`: non-path entries
before path entries, then lexicographic on `cmd`. -/
def entry_lt (a b : completion_entry_t) : Bool :=
  if a.cmd_is_path != b.cmd_is_path then !a.cmd_is_path && b.cmd_is_path
  else wchar_lt a.cmd b.cmd

/-- Insertion into the ordered schema set (`completion_set.insert`). -/
def insert_entry (e : completion_entry_t) : List completion_entry_t → List completion_entry_t
  | [] => [e]
  | x :: xs => if entry_lt e x then e :: x :: xs else x :: insert_entry e xs

/-- The process-wide completion store: the schema set together with the
`kCompleteOrder` stamp counter. -/
structure comp_store where
  entries : List completion_entry_t
  counter : Nat
deriving DecidableEq, Repr

/-- The empty store (process start: no schemas, `kCompleteOrder = 0`). -/
def empty_store : comp_store := { entries := [], counter := 0 }

/-- `complete_find_exact_entry`: locate the schema with the exact key. -/
def complete_find_entry (entries : List completion_entry_t) (cmd : WStr) (p : Bool) :
    Option completion_entry_t :=
  entries.find? (fun e => key_match e cmd p)

/-- A freshly constructed schema
(`completion_entry_t(cmd, cmd_is_path, L"", false)` with stamp
`++kCompleteOrder`). -/
def blank_entry (cmd : WStr) (p : Bool) (ord : Nat) : completion_entry_t :=
  { cmd := cmd, cmd_is_path := p, authoritative := false, order := ord,
    short_opt_str := [], options := [] }

/-- Update the (unique) schema with the given key in place. -/
def update_first (cmd : WStr) (p : Bool) (f : completion_entry_t → completion_entry_t) :
    List completion_entry_t → List completion_entry_t
  | [] => []
  | e :: rest => if key_match e cmd p then f e :: rest else e :: update_first cmd p f rest

/-- `complete_get_exact_entry`: find the schema, creating it if absent. -/
def store_get_or_create (st : comp_store) (cmd : WStr) (p : Bool) : comp_store :=
  match complete_find_entry st.entries cmd p with
  | some _ => st
  | none =>
    { entries := insert_entry (blank_entry cmd p (st.counter + 1)) st.entries,
      counter := st.counter + 1 }

/-- Build the option record of `complete_add`: fields default to the empty
string when the corresponding pointer argument is null. -/
def add_option_fields (short_opt : Char) (long_opt : Option WStr) (old_mode : Bool)
    (result_mode : Nat) (condition comp desc : Option WStr)
    (flags : complete_flags_t) : complete_entry_opt_t :=
  { short_opt := short_opt, long_opt := long_opt.getD [], comp := comp.getD [],
    desc := desc.getD [], condition := condition.getD [],
    result_mode := result_mode, old_mode := old_mode, flags := flags }

/-- The mutation `complete_add` performs on the located schema: append the
short letter (plus a colon under NO_COMMON) to `short_opt_str`, and push the
new option at the front of the option list. -/
def entry_add_option (short_opt : Char) (result_mode : Nat)
    (opt : complete_entry_opt_t) (e : completion_entry_t) : completion_entry_t :=
  let e2 :=
    if short_opt ≠ nulChar then
      { e with short_opt_str :=
          e.short_opt_str ++ short_opt ::
            (if result_mode &&& NO_COMMON ≠ 0 then [':'] else []) }
    else e
  { e2 with options := opt :: e2.options }

/-- `complete_add`. -/
def complete_add_store (st : comp_store) (cmd : WStr) (cmd_is_path : Bool)
    (short_opt : Char) (long_opt : Option WStr) (old_mode : Bool) (result_mode : Nat)
    (condition comp desc : Option WStr) (flags : complete_flags_t) : comp_store :=
  let st2 := store_get_or_create st cmd cmd_is_path
  let opt := add_option_fields short_opt long_opt old_mode result_mode condition comp desc flags
  let entries2 := update_first cmd cmd_is_path (entry_add_option short_opt result_mode opt) st2.entries
  { st2 with entries := entries2 }

/-- `complete_set_authoritative`. -/
def complete_set_authoritative_store (st : comp_store) (cmd : WStr) (cmd_is_path : Bool)
    (auth : Bool) : comp_store :=
  let st2 := store_get_or_create st cmd cmd_is_path
  { st2 with entries :=
      update_first cmd cmd_is_path (fun e => { e with authoritative := auth }) st2.entries }

/-- The removal predicate of `completion_entry_t::remove_option`
(`short_opt == o.short_opt || long_opt == o.long_opt`); a null `long_opt`
pointer matches nothing. -/
def removal_match (short_opt : Char) (long_opt : Option WStr)
    (o : complete_entry_opt_t) : Bool :=
  short_opt == o.short_opt ||
    (match long_opt with
     | some l => l == o.long_opt
     | none => false)

/-- Consume a run of colons (the `while (... == L':') first_non_colon++` loop
of `remove_option`). -/
def erase_colon_run : WStr → WStr
  | [] => []
  | c :: rest => if c = ':' then erase_colon_run rest else c :: rest

/-- Erase the first occurrence of a short letter together with its following
colon run from `short_opt_str`; absent letters leave the string unchanged. -/
def erase_short_letter : WStr → Char → WStr
  | [], _ => []
  | x :: rest, c => if x = c then erase_colon_run rest else x :: erase_short_letter rest c

/-- The option-list walk of `remove_option`: erase every matching option,
splicing its short letter out of the evolving `short_opt_str`. -/
def remove_matching_options (short_opt : Char) (long_opt : Option WStr) :
    List complete_entry_opt_t → WStr → (List complete_entry_opt_t × WStr)
  | [], s => ([], s)
  | o :: rest, s =>
    if removal_match short_opt long_opt o then
      let s2 := if o.short_opt ≠ nulChar then erase_short_letter s o.short_opt else s
      remove_matching_options short_opt long_opt rest s2
    else
      let r := remove_matching_options short_opt long_opt rest s
      (o :: r.1, r.2)

/-- `completion_entry_t::remove_option`: clear everything when both
identifiers are absent, otherwise erase each matching option; report whether
the option list is now empty (entry should be deleted). -/
def remove_option_entry (e : completion_entry_t) (short_opt : Char)
    (long_opt : Option WStr) : completion_entry_t × Bool :=
  if short_opt = nulChar ∧ long_opt = none then
    ({ e with options := [] }, true)
  else
    let r := remove_matching_options short_opt long_opt e.options e.short_opt_str
    ({ e with options := r.1, short_opt_str := r.2 }, r.1.isEmpty)

/-- `complete_remove` on the schema list: locate the keyed schema, remove the
matching options, and delete the schema when its option list became empty. -/
def remove_in_entries (cmd : WStr) (p : Bool) (short_opt : Char)
    (long_opt : Option WStr) : List completion_entry_t → List completion_entry_t
  | [] => []
  | e :: rest =>
    if key_match e cmd p then
      let r := remove_option_entry e short_opt long_opt
      if r.2 then rest else r.1 :: rest
    else e :: remove_in_entries cmd p short_opt long_opt rest

/-- `complete_remove`. -/
def complete_remove_store (st : comp_store) (cmd : WStr) (cmd_is_path : Bool)
    (short_opt : Char) (long_opt : Option WStr) : comp_store :=
  { st with entries := remove_in_entries cmd cmd_is_path short_opt long_opt st.entries }

/-- A store-mutating call of the public API. -/
inductive store_op
  | op_add (cmd : WStr) (cmd_is_path : Bool) (short_opt : Char) (long_opt : Option WStr)
      (old_mode : Bool) (result_mode : Nat) (condition comp desc : Option WStr)
      (flags : complete_flags_t)
  | op_remove (cmd : WStr) (cmd_is_path : Bool) (short_opt : Char) (long_opt : Option WStr)
  | op_set_auth (cmd : WStr) (cmd_is_path : Bool) (auth : Bool)
deriving DecidableEq

/-- Interpret one store-mutating call. -/
def apply_op (st : comp_store) : store_op → comp_store
  | .op_add cmd p short long old mode cond comp desc flags =>
    complete_add_store st cmd p short long old mode cond comp desc flags
  | .op_remove cmd p short long => complete_remove_store st cmd p short long
  | .op_set_auth cmd p auth => complete_set_authoritative_store st cmd p auth

/-- Interpret a sequence of store-mutating calls. -/
def apply_ops (ops : List store_op) (st : comp_store) : comp_store :=
  ops.foldl apply_op st

/-- The `(cmd_is_path, cmd)` key of a schema. -/
def entry_key (e : completion_entry_t) : Bool × WStr := (e.cmd_is_path, e.cmd)

/-- At most one schema per key. -/
def unique_keys (entries : List completion_entry_t) : Prop :=
  (entries.map entry_key).Nodup

/-- `param_match_old`: `optstr[0] == '-'` and the old-style long option equals
the rest of the token. -/
def param_match_old (e : complete_entry_opt_t) (optstr : WStr) : Bool :=
  match optstr with
  | [] => false
  | c :: rest => c == '-' && e.long_opt == rest

/-- `param_match`: short letter against the token's second character, or GNU
`--long` equality. -/
def param_match (e : complete_entry_opt_t) (optstr : WStr) : Bool :=
  (e.short_opt != nulChar && optstr[1]? == some e.short_opt) ||
    (!e.old_mode && optstr.take 2 == ['-', '-'] && e.long_opt == optstr.drop 2)

/-- `param_match2`: recognize a combined option and argument
(`-I/usr/include` or `--color=auto`) and return the argument part. -/
def param_match2 (e : complete_entry_opt_t) (optstr : WStr) : Option WStr :=
  if e.short_opt ≠ nulChar ∧ optstr[1]? = some e.short_opt then some (optstr.drop 2)
  else if !e.old_mode ∧ optstr.take 2 = ['-', '-'] then
    let len := e.long_opt.length
    if (optstr.drop 2).take len = e.long_opt then
      if optstr[len + 2]? = some '=' then some (optstr.drop (len + 3)) else none
    else none
  else none

/-- First occurrence scan of `wcschr(allopt, c)` in `short_ok`: `none` when
the character is absent, otherwise whether the following character is a colon. -/
def find_with_next : WStr → Char → Option Bool
  | [], _ => none
  | x :: rest, c => if x = c then some (rest.head? == some ':') else find_with_next rest c

/-- `short_ok`: whether a short option can be appended to the current
argument. -/
def short_ok (arg : WStr) (nextopt : Char) (allopt : WStr) : Bool :=
  match arg with
  | [] => true
  | a :: rest =>
    if a ≠ '-' then false
    else if rest.head? = some '-' then false
    else if arg.contains nextopt then false
    else rest.all (fun c => find_with_next allopt c == some false)

/-- `wcsncasecmp(str, whole, wcslen(str)) == 0`: the first `|str|` characters
agree case-insensitively (false when `whole` is shorter than `str`). -/
def wide_ncasecmp_eq (str whole : WStr) : Bool :=
  decide (str.length ≤ whole.length) &&
    str.map Char.toLower == (whole.take str.length).map Char.toLower

/-- A snapshot of one matching schema taken under the locks
(`local_options_t`). -/
structure local_options_t where
  short_opt_str : WStr
  options : List complete_entry_opt_t
deriving DecidableEq, Repr

/-- An observable effect of the parameter matcher: a call to
`complete_from_args` (argument-value generation through the external args
evaluator) or a direct `append_completion`. -/
inductive param_event
  | from_args (arg : WStr) (comp : WStr) (desc : WStr) (flags : complete_flags_t)
  | append_comp (comp : WStr) (desc : WStr) (flags : complete_flags_t)
deriving DecidableEq, Repr

/-- Apply a matched option's `result_mode` to `(use_common, use_files)`. -/
def apply_result_mode (mode : Nat) (uc uf : Bool) : Bool × Bool :=
  (if mode &&& NO_COMMON ≠ 0 then false else uc,
   if mode &&& NO_FILES ≠ 0 then false else uf)

/-- Branch A of `complete_param` (current token starts with a dash): combined
option-and-argument forms. -/
def process_branchA (cond : WStr → Bool) (str : WStr) :
    List complete_entry_opt_t → Bool → Bool → List param_event →
    Bool × Bool × List param_event
  | [], uc, uf, ev => (uc, uf, ev)
  | o :: rest, uc, uf, ev =>
    match param_match2 o str with
    | some arg =>
      if cond o.condition then
        let p := apply_result_mode o.result_mode uc uf
        process_branchA cond str rest p.1 p.2 (ev ++ [.from_args arg o.comp o.desc o.flags])
      else process_branchA cond str rest uc uf ev
    | none => process_branchA cond str rest uc uf ev

/-- The old-style scan of branch B of `complete_param` (previous token starts
with a dash): returns the `old_style_match` flag as well. -/
def process_branchB_old (cond : WStr → Bool) (popt str : WStr) :
    List complete_entry_opt_t → Bool → Bool → Bool → List param_event →
    Bool × Bool × Bool × List param_event
  | [], osm, uc, uf, ev => (osm, uc, uf, ev)
  | o :: rest, osm, uc, uf, ev =>
    if o.old_mode then
      if param_match_old o popt && cond o.condition then
        let p := apply_result_mode o.result_mode uc uf
        process_branchB_old cond popt str rest true p.1 p.2
          (ev ++ [.from_args str o.comp o.desc o.flags])
      else process_branchB_old cond popt str rest osm uc uf ev
    else process_branchB_old cond popt str rest osm uc uf ev

/-- The skip test of the short/GNU scan of branch B as the code performs it:
a GNU option with a long name and NO_COMMON unset is skipped (its optional
argument must be supplied in one token with an equal sign). -/
def gnu_optional_skip (o : complete_entry_opt_t) : Bool :=
  !o.old_mode && !o.long_opt.isEmpty && o.result_mode &&& NO_COMMON == 0

/-- Following the claim's words (refinement comparison): the skip test as the
claim states it, additionally requiring a non-empty arg_spec. -/
def claimC2_skip (o : complete_entry_opt_t) : Bool :=
  !o.old_mode && !o.long_opt.isEmpty && o.result_mode &&& NO_COMMON == 0 &&
    !o.comp.isEmpty

/-- The short/GNU scan of branch B of `complete_param`, parameterized over the
skip test. -/
def process_branchB_rest (skip : complete_entry_opt_t → Bool) (cond : WStr → Bool)
    (popt str : WStr) :
    List complete_entry_opt_t → Bool → Bool → List param_event →
    Bool × Bool × List param_event
  | [], uc, uf, ev => (uc, uf, ev)
  | o :: rest, uc, uf, ev =>
    if skip o then process_branchB_rest skip cond popt str rest uc uf ev
    else if param_match o popt && cond o.condition then
      let p := apply_result_mode o.result_mode uc uf
      process_branchB_rest skip cond popt str rest p.1 p.2
        (ev ++ [.from_args str o.comp o.desc o.flags])
    else process_branchB_rest skip cond popt str rest uc uf ev

/-- One option of the common pass of `complete_param`: positional arguments,
then the short and long switch candidates for the current token. -/
def common_pass_opt (cond : WStr → Bool) (str : WStr) (use_switches : Bool)
    (sos : WStr) (o : complete_entry_opt_t) (uf : Bool) (ev : List param_event) :
    Bool × List param_event :=
  if !cond o.condition then (uf, ev)
  else
    let r :=
      if o.short_opt = nulChar ∧ o.long_opt = [] then
        (uf && o.result_mode &&& NO_FILES == 0,
         ev ++ [.from_args str o.comp o.desc o.flags])
      else (uf, ev)
    if str ≠ [] ∧ use_switches then
      let r2 :=
        if o.short_opt != nulChar && short_ok str o.short_opt sos then
          (r.1, r.2 ++ [.append_comp [o.short_opt] o.desc default_flags])
        else r
      if o.long_opt ≠ [] then
        let whole := (if o.old_mode then ['-'] else ['-', '-']) ++ o.long_opt
        let mtch := List.isPrefixOf str whole
        let mnc := if mtch then false else wide_ncasecmp_eq str whole
        if mtch || mnc then
          let offset := if mtch then str.length else 0
          let fl : complete_flags_t :=
            if mtch then default_flags else { default_flags with replaces_token := true }
          let has_arg := !o.comp.isEmpty
          let req_arg := o.result_mode &&& NO_COMMON ≠ 0
          let r3 :=
            if !o.old_mode ∧ has_arg ∧ ¬req_arg then
              (r2.1, r2.2 ++ [.append_comp (whole.drop offset ++ ['=']) o.desc fl])
            else r2
          (r3.1, r3.2 ++ [.append_comp (whole.drop offset) o.desc fl])
        else r2
      else r2
    else r

/-- The common pass over a snapshot's option list. -/
def process_common (cond : WStr → Bool) (str : WStr) (use_switches : Bool)
    (sos : WStr) : List complete_entry_opt_t → Bool → List param_event →
    Bool × List param_event
  | [], uf, ev => (uf, ev)
  | o :: rest, uf, ev =>
    let r := common_pass_opt cond str use_switches sos o uf ev
    process_common cond str use_switches sos rest r.1 r.2

/-- Processing of one schema snapshot inside `complete_param`'s main loop:
`use_common` is reset to true here; `use_files` flows in from the caller. -/
def process_snapshot (skip : complete_entry_opt_t → Bool) (cond : WStr → Bool)
    (popt str : WStr) (use_switches : Bool) (snap : local_options_t)
    (uf : Bool) (ev : List param_event) : Bool × List param_event :=
  let uc := true
  let r :=
    if use_switches then
      if str.head? = some '-' then
        process_branchA cond str snap.options uc uf ev
      else if popt.head? = some '-' then
        let b := process_branchB_old cond popt str snap.options false uc uf ev
        if !b.1 then process_branchB_rest skip cond popt str snap.options b.2.1 b.2.2.1 b.2.2.2
        else (b.2.1, b.2.2.1, b.2.2.2)
      else (uc, uf, ev)
    else (uc, uf, ev)
  if r.1 then process_common cond str use_switches snap.short_opt_str snap.options r.2.1 r.2.2
  else (r.2.1, r.2.2)

/-- The post-snapshot part of `completer_t::complete_param`: iterate the
snapshots of the matching schemas, with `use_common` reset per snapshot and
`use_files` initialized once for the whole invocation; return the final
`use_files` together with the emitted events. -/
def complete_param_snaps (cond : WStr → Bool) (popt str : WStr)
    (use_switches : Bool) (snaps : List local_options_t) : Bool × List param_event :=
  snaps.foldl
    (fun acc snap => process_snapshot gnu_optional_skip cond popt str use_switches snap acc.1 acc.2)
    (true, [])

/-- Following the claim's words (refinement comparison): the C2 claim's
variant of the matcher, whose branch-B scan also requires a non-empty
arg_spec before skipping an option. -/
def complete_param_snaps_claimC2 (cond : WStr → Bool) (popt str : WStr)
    (use_switches : Bool) (snaps : List local_options_t) : Bool × List param_event :=
  snaps.foldl
    (fun acc snap => process_snapshot claimC2_skip cond popt str use_switches snap acc.1 acc.2)
    (true, [])

/-- Following the claim's words (refinement comparison): the C3 claim's
variant of the matcher, in which `use_files` is re-initialized to true at the
start of every snapshot's iteration. -/
def complete_param_snaps_claimC3 (cond : WStr → Bool) (popt str : WStr)
    (use_switches : Bool) (snaps : List local_options_t) : Bool × List param_event :=
  snaps.foldl
    (fun acc snap => process_snapshot gnu_optional_skip cond popt str use_switches snap true acc.2)
    (true, [])

/-- The command tail after the last slash (`str.substr(last_slash + 1)` in
`parse_cmd_string`). -/
def after_last_slash (s : WStr) : WStr :=
  (s.reverse.takeWhile (fun c => c ≠ '/')).reverse

/-- `parse_cmd_string`: resolve the path through the `path_get_path` oracle
(empty when not found) and strip the directory part off the command. -/
def parse_cmd_string (get_path : WStr → Option WStr) (s : WStr) : WStr × WStr :=
  ((get_path s).getD [], after_last_slash s)

/-- `complete_is_valid_argument` (always true in the sources). -/
def complete_is_valid_argument (cmdline opt arg : WStr) : Bool :=
  true

/-- Insertion into the `std::set<wcstring> gnu_match_set`. -/
def wset_insert (s : List WStr) (x : WStr) : List WStr :=
  if x ∈ s then s else s ++ [x]

/-- The running state of `complete_is_valid_option`'s store walk. -/
structure ivo_state where
  found_match : Bool
  authoritative : Bool
  opt_found : Bool
  gnu_match_set : List WStr
  is_gnu_exact : Bool
  is_old_opt : Bool
  short_validated : List Bool
deriving DecidableEq, Repr

/-- The length of the GNU option body (`gnu_opt_len`): up to the first equal
sign, else to the end of the token. -/
def gnu_len_of (opt : WStr) : Nat :=
  match List.findIdx? (fun c => c = '=') opt with
  | some i => i - 2
  | none => opt.length - 2

/-- The GNU-option scan of one authoritative matching schema: collect long
options equal to the body of the token into the match set. -/
def ivo_gnu_scan (opt : WStr) (gnu_len : Nat) (options : List complete_entry_opt_t)
    (st : ivo_state) : ivo_state :=
  options.foldl
    (fun st o =>
      if o.old_mode then st
      else if (opt.drop 2).take gnu_len = o.long_opt then
        let st2 := { st with gnu_match_set := wset_insert st.gnu_match_set o.long_opt }
        if ¬ ((opt.drop 2).take o.long_opt.length = o.long_opt) then
          { st2 with is_gnu_exact := true }
        else st2
      else st)
    st

/-- The old-style scan of one schema: the first old-mode option equal to the
token after its dash ends the whole walk with a positive verdict. -/
def ivo_old_scan (opt : WStr) (options : List complete_entry_opt_t)
    (st : ivo_state) : ivo_state :=
  match options.find? (fun o => o.old_mode && o.long_opt == opt.drop 1) with
  | some _ => { st with opt_found := true, is_old_opt := true }
  | none => st

/-- The short-letter validation walk over the token's characters (indices 1
and up), marking characters found in the schema's `short_opt_str`. -/
def ivo_short_scan_aux (cmdline opt sos : WStr) : Nat → List Char → List Bool → List Bool
  | _, [], sv => sv
  | idx, c :: rest, sv =>
    let sv2 :=
      match find_with_next sos c with
      | some has_colon =>
        sv.set idx
          (if has_colon then
            complete_is_valid_argument cmdline ('-' :: (opt.drop 1).take 1) (opt.drop 2)
          else true)
      | none => sv
    ivo_short_scan_aux cmdline opt sos (idx + 1) rest sv2

/-- The short-letter validation of one schema. -/
def ivo_short_scan (cmdline opt sos : WStr) (sv : List Bool) : List Bool :=
  ivo_short_scan_aux cmdline opt sos 1 (opt.drop 1) sv

/-- The store walk of `complete_is_valid_option`: skip non-matching schemas,
stop at the first non-authoritative match, otherwise accumulate GNU / old /
short validation data. -/
def ivo_loop (wmatch : WStr → WStr → Bool) (cmdline path cmd opt : WStr)
    (is_gnu : Bool) (gnu_len : Nat) :
    List completion_entry_t → ivo_state → ivo_state
  | [], st => st
  | e :: rest, st =>
    if ¬ wmatch (if e.cmd_is_path then path else cmd) e.cmd then
      ivo_loop wmatch cmdline path cmd opt is_gnu gnu_len rest st
    else
      let st1 := { st with found_match := true }
      if ¬ e.authoritative then { st1 with authoritative := false }
      else if is_gnu then
        ivo_loop wmatch cmdline path cmd opt is_gnu gnu_len rest
          (ivo_gnu_scan opt gnu_len e.options st1)
      else
        let st2 := ivo_old_scan opt e.options st1
        if st2.is_old_opt then st2
        else
          ivo_loop wmatch cmdline path cmd opt is_gnu gnu_len rest
            { st2 with short_validated := ivo_short_scan cmdline opt e.short_opt_str st2.short_validated }

/-- `format_error`: the prefix followed by the culprit in single quotes. -/
def format_error (pre s : WStr) : WStr :=
  pre ++ quoteChar :: (s ++ [quoteChar])

/-- The `Unknown option: ` error prefix. -/
def unknown_option_msg : WStr := "Unknown option: ".data

/-- The `Multiple matches for option: ` error prefix. -/
def multiple_matches_msg : WStr := "Multiple matches for option: ".data

/-- First index at or after 1 whose short-validation entry is false (the
error loop of the short-option verdict). -/
def first_false_aux : Nat → List Bool → Option Nat
  | _, [] => none
  | idx, b :: rest => if b then first_false_aux (idx + 1) rest else some idx

/-- Scan `short_validated` from index 1. -/
def first_false_from1 (sv : List Bool) : Option Nat :=
  match sv with
  | [] => none
  | _ :: rest => first_false_aux 1 rest

/-- The validation block of `complete_is_valid_option` run when every matched
schema was authoritative: compute the final verdict and the emitted errors. -/
def ivo_validate (opt : WStr) (is_gnu : Bool) (st : ivo_state) : Bool × List WStr :=
  if ¬ st.authoritative then (st.opt_found, [])
  else
    let is_short := ¬ is_gnu ∧ ¬ st.is_old_opt
    let s1 : Bool × List WStr :=
      if is_short then
        match first_false_from1 st.short_validated with
        | some j => (false, [format_error unknown_option_msg ((opt.drop j).take 1)])
        | none => (true, [])
      else (st.opt_found, [])
    if is_gnu then
      let ofound := st.is_gnu_exact || st.gnu_match_set.length == 1
      if ofound then (ofound, s1.2)
      else
        (ofound,
         s1.2 ++ [format_error
           (if st.gnu_match_set.isEmpty then unknown_option_msg else multiple_matches_msg) opt])
    else s1

/-- `complete_is_valid_option` (autoload disabled / already performed): the
generic pre-checks, the store walk, the validation block, and the final
`(authoritative && found_match) ? opt_found : true` verdict, together with
the errors appended to `errors_out`. -/
def complete_is_valid_option_m (wmatch : WStr → WStr → Bool)
    (get_path : WStr → Option WStr) (entries : List completion_entry_t)
    (cmdline opt : WStr) : Bool × List WStr :=
  if opt = [] then (false, [])
  else if opt.length = 1 then (true, [])
  else if opt = ['-', '-'] then (true, [])
  else if opt.head? ≠ some '-' then
    (false, ["Option does not begin with a ".data ++ [quoteChar, '-', quoteChar]])
  else
    let is_gnu := opt[1]? = some '-'
    let gnu_len := if is_gnu then gnu_len_of opt else 0
    let pc := parse_cmd_string get_path cmdline
    let st0 : ivo_state :=
      { found_match := false, authoritative := true, opt_found := false,
        gnu_match_set := [], is_gnu_exact := false, is_old_opt := false,
        short_validated := List.replicate opt.length false }
    let st := ivo_loop wmatch cmdline pc.1 pc.2 opt is_gnu gnu_len entries st0
    let v := ivo_validate opt is_gnu st
    (if st.authoritative && st.found_match then v.1 else true, v.2)

/-- The request flags of a completion session
(`completion_request_flags_t`). -/
structure request_flags_t where
  descriptions : Bool
  fuzzy : Bool
  autosuggest : Bool
deriving DecidableEq, Repr

/-- `completer_t::complete_variable`: walk the environment-variable names,
fuzzy-matching each against the token part after the dollar; emit a suffix
candidate or a full-replacement candidate; when descriptions are requested,
skip names whose value is missing from the environment, and otherwise (outside
autosuggest) describe the candidate with the escaped value.  Oracles:
`env_get` for `env_get_string`, `esc_var` for `expand_escape_variable`,
`fmatch` for `string_fuzzy_match_string` (the session's fuzzy cap folded in).
Returns the emitted candidates and the `res` flag. -/
def complete_variable_m (req : request_flags_t) (env_get : WStr → Option WStr)
    (esc_var : WStr → WStr) (fmatch : WStr → WStr → fuzzy_match_type_t)
    (names : List WStr) (str : WStr) (start_offset : Nat) :
    List completion_t × Bool :=
  let var := str.drop start_offset
  let varlen := var.length
  names.foldl
    (fun acc env_name =>
      let mt := fmatch var env_name
      if mt = .noMatch then acc
      else
        let comp_flags : complete_flags_t :=
          if match_type_requires_full_replacement mt then
            { default_flags with replaces_token := true, dont_escape := true }
          else default_flags
        let comp :=
          if ¬ match_type_requires_full_replacement mt then env_name.drop varlen
          else str.take start_offset ++ env_name
        if req.descriptions then
          match env_get env_name with
          | none => acc
          | some value =>
            let desc :=
              if ¬ req.autosuggest then "Variable: ".data ++ esc_var value else []
            (append_completion acc.1 comp desc comp_flags ⟨mt⟩, true)
        else (append_completion acc.1 comp [] comp_flags ⟨mt⟩, true))
    ([], false)

/-- Modelled from the spec: `escape_string(s, ESCAPE_ALL)` of common.cpp (not
in the sources); per spec section 6 the printed values are single-quoted with
shell escaping, so quote and backslash are escaped with a backslash. -/
def escape_str (s : WStr) : WStr :=
  quoteChar ::
    (s.flatMap (fun c =>
      if c = quoteChar ∨ c = bslashChar then [bslashChar, c] else [c]) ++ [quoteChar])

/-- `append_switch` of the printer: emit nothing for an empty argument,
otherwise the switch name and the escaped argument. -/
def append_switch (out : WStr) (opt argument : WStr) : WStr :=
  if argument = [] then out
  else out ++ " --".data ++ opt ++ ' ' :: escape_str argument

/-- The `modestr` table of `complete_print` (indexing past the table is
undefined in C; an out-of-range `result_mode` is mapped to the empty string
here and excluded by hypothesis wherever it matters). -/
def modestr (n : Nat) : WStr :=
  (["", " --no-files", " --require-parameter", " --exclusive"].map String.data).getD n []

/-- One output line of `complete_print` for one option of one schema. -/
def print_opt_line (e : completion_entry_t) (o : complete_entry_opt_t) : WStr :=
  let out := "complete".data ++ modestr o.result_mode
  let out := append_switch out (if e.cmd_is_path then "path".data else "command".data) e.cmd
  let out :=
    if o.short_opt ≠ nulChar then
      out ++ " --short-option ".data ++ [quoteChar, o.short_opt, quoteChar]
    else out
  let out := append_switch out (if o.old_mode then "old-option".data else "long-option".data) o.long_opt
  let out := append_switch out "description".data o.desc
  let out := append_switch out "arguments".data o.comp
  let out := append_switch out "condition".data o.condition
  out ++ [nlChar]

/-- Insertion sort by the schema `order` stamp
(`compare_completions_by_order` + `std::sort`; stamps are unique, so
stability is irrelevant). -/
def insert_by_order (e : completion_entry_t) : List completion_entry_t → List completion_entry_t
  | [] => [e]
  | x :: xs => if e.order < x.order then e :: x :: xs else x :: insert_by_order e xs

/-- Sort schemas by their `order` stamp. -/
def sort_by_order : List completion_entry_t → List completion_entry_t
  | [] => []
  | e :: rest => insert_by_order e (sort_by_order rest)

/-- `complete_print`: schemas sorted by creation order, each option printed
as one `complete` command line. -/
def complete_print_m (entries : List completion_entry_t) : WStr :=
  ((sort_by_order entries).map (fun e => (e.options.map (print_opt_line e)).flatten)).flatten

/-- Strip a literal leading pattern, or fail. -/
def strip_lead (pat s : WStr) : Option WStr :=
  if pat.isPrefixOf s then some (s.drop pat.length) else none

/-- Modelled from the spec: the replay side's reader of a single-quoted
escaped value (inverse of `escape_str`): backslash escapes the next
character, an unescaped quote ends the value. -/
def parse_quoted_body : WStr → Option (WStr × WStr)
  | [] => none
  | c :: rest =>
    if c = quoteChar then some ([], rest)
    else if c = bslashChar then
      match rest with
      | [] => none
      | d :: rest2 => (parse_quoted_body rest2).map (fun p => (d :: p.1, p.2))
    else (parse_quoted_body rest).map (fun p => (c :: p.1, p.2))

/-- Modelled from the spec: read a single-quoted value. -/
def parse_quoted (s : WStr) : Option (WStr × WStr) :=
  match s with
  | [] => none
  | c :: rest => if c = quoteChar then parse_quoted_body rest else none

/-- Modelled from the spec: an optional valued switch of the printed grammar;
yields `none` for the value when the switch is absent at this position. -/
def parse_opt_switch (pat s : WStr) : Option (Option WStr × WStr) :=
  match strip_lead pat s with
  | some r => (parse_quoted r).map (fun p => (some p.1, p.2))
  | none => some (none, s)

/-- Modelled from the spec: the result-mode prefix of a printed line. -/
def parse_mode (s : WStr) : Nat × WStr :=
  match strip_lead " --no-files".data s with
  | some r => (1, r)
  | none =>
    match strip_lead " --require-parameter".data s with
    | some r => (2, r)
    | none =>
      match strip_lead " --exclusive".data s with
      | some r => (3, r)
      | none => (0, s)

/-- Modelled from the spec: the mandatory `--path` / `--command` switch. -/
def parse_cmd_switch (s : WStr) : Option ((Bool × WStr) × WStr) :=
  match strip_lead " --path ".data s with
  | some r => (parse_quoted r).map (fun p => ((true, p.1), p.2))
  | none =>
    match strip_lead " --command ".data s with
    | some r => (parse_quoted r).map (fun p => ((false, p.1), p.2))
    | none => none

/-- Modelled from the spec: the optional `--short-option` switch, whose quoted
single character is printed without escaping; absent maps to the NUL
sentinel, exactly the `complete_add` encoding of "no short option". -/
def parse_short_switch (s : WStr) : Option (Char × WStr) :=
  match strip_lead " --short-option ".data s with
  | some r =>
    match r with
    | q1 :: c :: q2 :: rest =>
      if q1 = quoteChar ∧ q2 = quoteChar then some (c, rest) else none
    | _ => none
  | none => some (nulChar, s)

/-- Modelled from the spec: the optional `--old-option` / `--long-option`
switch; when absent, the replayed add carries no long option and old mode
defaults to false (the builtin's initial value). -/
def parse_long_switch (s : WStr) : Option ((Bool × Option WStr) × WStr) :=
  match strip_lead " --old-option ".data s with
  | some r => (parse_quoted r).map (fun p => ((true, some p.1), p.2))
  | none =>
    match strip_lead " --long-option ".data s with
    | some r => (parse_quoted r).map (fun p => ((false, some p.1), p.2))
    | none => some ((false, none), s)

/-- Modelled from the spec: the fields of one parsed `complete` command. -/
structure parsed_complete where
  result_mode : Nat
  cmd_is_path : Bool
  cmd : WStr
  short_opt : Char
  old_mode : Bool
  long_opt : Option WStr
  desc : Option WStr
  comp : Option WStr
  condition : Option WStr
deriving DecidableEq, Repr

/-- Modelled from the spec: parse one printed line (the grammar of spec
section 6, whose switches appear in the printer's fixed order), returning the
parsed fields and the rest of the text after the newline. -/
def parse_complete_line (s : WStr) : Option (parsed_complete × WStr) :=
  match strip_lead "complete".data s with
  | none => none
  | some s1 =>
    let m := parse_mode s1
    match parse_cmd_switch m.2 with
    | none => none
    | some (cp, s2) =>
      match parse_short_switch s2 with
      | none => none
      | some (sc, s3) =>
        match parse_long_switch s3 with
        | none => none
        | some (ol, s4) =>
          match parse_opt_switch " --description ".data s4 with
          | none => none
          | some (d, s5) =>
            match parse_opt_switch " --arguments ".data s5 with
            | none => none
            | some (a, s6) =>
              match parse_opt_switch " --condition ".data s6 with
              | none => none
              | some (c, s7) =>
                match s7 with
                | [] => none
                | nl :: rest =>
                  if nl = nlChar then
                    some ({ result_mode := m.1, cmd_is_path := cp.1, cmd := cp.2,
                            short_opt := sc, old_mode := ol.1, long_opt := ol.2,
                            desc := d, comp := a, condition := c }, rest)
                  else none

/-- Modelled from the spec: replaying one parsed line is a `complete_add`
call with the parsed fields (presentation flags are not part of the printed
format, so the replayed option carries the clear flag value). -/
def apply_parsed (pc : parsed_complete) (st : comp_store) : comp_store :=
  complete_add_store st pc.cmd pc.cmd_is_path pc.short_opt pc.long_opt pc.old_mode
    pc.result_mode pc.condition pc.comp pc.desc default_flags

/-- Modelled from the spec: replay a printed text line by line against a
store (fuel-bounded recursion; the text length suffices as fuel since every
line is non-empty). -/
def replay_print (fuel : Nat) (st : comp_store) (s : WStr) : comp_store :=
  match fuel with
  | 0 => st
  | fuel + 1 =>
    match parse_complete_line s with
    | some (pc, rest) => replay_print fuel (apply_parsed pc st) rest
    | none => st

/-- The derived block a single option contributes to `short_opt_str` (spec
section 3: the short letter followed by a colon when the option consumes an
argument); refinement comparison definition for the coherence claim. -/
def short_block (o : complete_entry_opt_t) : WStr :=
  if o.short_opt = nulChar then []
  else o.short_opt :: (if o.result_mode &&& NO_COMMON ≠ 0 then [':'] else [])

/-- The derived view of `short_opt_str` per the spec: concatenation of the
blocks in chronological (insertion) order, which is the reverse of the
newest-first option list; refinement comparison definition. -/
def derived_short_str (opts : List complete_entry_opt_t) : WStr :=
  (opts.reverse.map short_block).flatten

/-- The short letters declared by an option list (in list order). -/
def short_letters (opts : List complete_entry_opt_t) : List Char :=
  opts.filterMap (fun o => if o.short_opt = nulChar then none else some o.short_opt)

/-- Entry-level coherence: the stored `short_opt_str` agrees with the derived
view. -/
def entry_coherent (e : completion_entry_t) : Prop :=
  e.short_opt_str = derived_short_str e.options

/-- Entry-level side condition: pairwise distinct short letters, none of them
a colon. -/
def entry_shorts_ok (e : completion_entry_t) : Prop :=
  (short_letters e.options).Nodup ∧ ':' ∉ short_letters e.options

/-- Store-level coherence invariant. -/
def store_short_inv (st : comp_store) : Prop :=
  ∀ e ∈ st.entries, entry_coherent e ∧ entry_shorts_ok e

/-- Side condition on one store-mutating call: an added short letter must be
fresh for its schema and must not be the colon character. -/
def op_keeps_shorts_ok (st : comp_store) : store_op → Prop
  | .op_add cmd p short _ _ _ _ _ _ _ =>
    short = nulChar ∨
      (short ≠ ':' ∧
        ∀ e ∈ st.entries, key_match e cmd p = true → short ∉ short_letters e.options)
  | _ => True

/-- The formalization of "the schema declares the given option" used by the
validity claim: for a GNU token, a non-old option whose long name equals the
token's body; otherwise an old-style option equal to the token after its
dash, or any token character present in the schema's short-option string. -/
def entry_declares (e : completion_entry_t) (opt : WStr) : Prop :=
  if opt[1]? = some '-' then
    ∃ o ∈ e.options, o.old_mode = false ∧ o.long_opt = (opt.drop 2).take (gnu_len_of opt)
  else
    (∃ o ∈ e.options, o.old_mode = true ∧ o.long_opt = opt.drop 1) ∨
      (∃ c ∈ opt.drop 1, c ∈ e.short_opt_str)

/-- Side conditions under which a printed schema replays exactly: a non-empty
command, and options whose old-mode flag is observable (non-empty long
option), whose presentation flags are the clear value (flags are not part of
the printed format), whose result mode stays inside the mode table, and whose
short letter does not collide with the quoting of the printed format. -/
def entry_roundtrip_ok (e : completion_entry_t) : Prop :=
  e.cmd ≠ [] ∧
    ∀ o ∈ e.options,
      (o.old_mode = true → o.long_opt ≠ []) ∧
        o.flags = default_flags ∧
        o.result_mode < 4 ∧
        o.short_opt ≠ quoteChar ∧ o.short_opt ≠ bslashChar

/-- The parsed form of one printed option line (empty fields print as omitted
switches and parse back as absent). -/
def parsed_of (e : completion_entry_t) (o : complete_entry_opt_t) : parsed_complete :=
  { result_mode := o.result_mode, cmd_is_path := e.cmd_is_path, cmd := e.cmd,
    short_opt := o.short_opt,
    old_mode := if o.long_opt = [] then false else o.old_mode,
    long_opt := if o.long_opt = [] then none else some o.long_opt,
    desc := if o.desc = [] then none else some o.desc,
    comp := if o.comp = [] then none else some o.comp,
    condition := if o.condition = [] then none else some o.condition }

/-- Concrete data: an option with a short letter and a long name. -/
def c1_optA : complete_entry_opt_t :=
  { short_opt := 'a', long_opt := ['a', 'l'], comp := [], desc := [], condition := [],
    result_mode := 2, old_mode := false, flags := default_flags }

/-- Concrete data: a long-only option. -/
def c1_optB : complete_entry_opt_t :=
  { short_opt := nulChar, long_opt := ['b', 'e'], comp := [], desc := [], condition := [],
    result_mode := 0, old_mode := false, flags := default_flags }

/-- Concrete data: a schema holding the two options above. -/
def c1_entry : completion_entry_t :=
  { cmd := ['g'], cmd_is_path := false, authoritative := false, order := 1,
    short_opt_str := ['a', ':'], options := [c1_optA, c1_optB] }

/-- Concrete data: a GNU option with an optional argument per the code's skip
test (long name, NO_COMMON unset) but with an empty arg_spec. -/
def c2_opt : complete_entry_opt_t :=
  { short_opt := nulChar, long_opt := ['f', 'o', 'o'], comp := [], desc := [], condition := [],
    result_mode := 1, old_mode := false, flags := default_flags }

/-- Concrete data: a snapshot holding only `c2_opt`. -/
def c2_snap : local_options_t := { short_opt_str := [], options := [c2_opt] }

/-- Concrete data: a positional option (no identifiers) with NO_FILES set. -/
def c3_opt : complete_entry_opt_t :=
  { short_opt := nulChar, long_opt := [], comp := ['a'], desc := [], condition := [],
    result_mode := 1, old_mode := false, flags := default_flags }

/-- Concrete data: a snapshot whose positional option clears `use_files`. -/
def c3_snap1 : local_options_t := { short_opt_str := [], options := [c3_opt] }

/-- Concrete data: an empty snapshot. -/
def c3_snap2 : local_options_t := { short_opt_str := [], options := [] }

/-- Concrete data: an authoritative schema declaring no options. -/
def c4_entry : completion_entry_t :=
  { cmd := ['f', 'o', 'o'], cmd_is_path := false, authoritative := true, order := 1,
    short_opt_str := [], options := [] }

/-- Concrete data: two adds sharing the short letter x (the first one
argument-taking), then a removal by long option of the second one. -/
def c8_ops : List store_op :=
  [ .op_add ['c'] false 'x' none false 2 none none none default_flags,
    .op_add ['c'] false 'x' (some ['f']) false 0 none none none default_flags,
    .op_remove ['c'] false nulChar (some ['f']) ]

/-- Concrete data: a coherent one-option schema. -/
def c8w_entry : completion_entry_t :=
  { cmd := ['w'], cmd_is_path := false, authoritative := false, order := 1,
    short_opt_str := ['a'],
    options := [{ short_opt := 'a', long_opt := [], comp := [], desc := [], condition := [],
                  result_mode := 0, old_mode := false, flags := default_flags }] }

/-- Concrete data: a store holding the schema above. -/
def c8w_store : comp_store := { entries := [c8w_entry], counter := 1 }

/-- Concrete data: an add with a fresh short letter. -/
def c8w_op : store_op := .op_add ['w'] false 'b' none false 2 none none none default_flags

/-- Concrete data: a short-only option in old mode. -/
def c9_opt_old : complete_entry_opt_t :=
  { short_opt := 'x', long_opt := [], comp := [], desc := [], condition := [],
    result_mode := 0, old_mode := true, flags := default_flags }

/-- Concrete data: the same option in GNU mode. -/
def c9_opt_new : complete_entry_opt_t := { c9_opt_old with old_mode := false }

/-- Concrete data: a schema holding the old-mode variant. -/
def c9_entry_old : completion_entry_t :=
  { cmd := ['c'], cmd_is_path := false, authoritative := false, order := 1,
    short_opt_str := ['x'], options := [c9_opt_old] }

/-- Concrete data: a schema holding the GNU variant. -/
def c9_entry_new : completion_entry_t := { c9_entry_old with options := [c9_opt_new] }

/-- Concrete data: a fully populated replayable option. -/
def c9w_opt1 : complete_entry_opt_t :=
  { short_opt := 's', long_opt := ['l', 'n', 'g'], comp := ['a', 'r'], desc := ['d', 'e'],
    condition := ['c', 'o'], result_mode := 2, old_mode := false, flags := default_flags }

/-- Concrete data: an old-mode replayable option. -/
def c9w_opt2 : complete_entry_opt_t :=
  { short_opt := nulChar, long_opt := ['o', 'l', 'd'], comp := [], desc := [],
    condition := [], result_mode := 1, old_mode := true, flags := default_flags }

/-- Concrete data: a schema holding the two replayable options. -/
def c9w_entry : completion_entry_t :=
  { cmd := ['g', 'i', 't'], cmd_is_path := false, authoritative := false, order := 5,
    short_opt_str := ['s', ':'], options := [c9w_opt1, c9w_opt2] }

/-- The initial walk state of `complete_is_valid_option`. -/
def ivo_init (opt : WStr) : ivo_state :=
  { found_match := false, authoritative := true, opt_found := false,
    gnu_match_set := [], is_gnu_exact := false, is_old_opt := false,
    short_validated := List.replicate opt.length false }

/-- The walk state `complete_is_valid_option` reaches after its store loop
(main path, i.e. for tokens that pass the generic pre-checks). -/
def civo_loop_result (wmatch : WStr → WStr → Bool) (get_path : WStr → Option WStr)
    (entries : List completion_entry_t) (cmdline opt : WStr) : ivo_state :=
  ivo_loop wmatch cmdline (parse_cmd_string get_path cmdline).1
    (parse_cmd_string get_path cmdline).2 opt (decide (opt[1]? = some '-'))
    (if opt[1]? = some '-' then gnu_len_of opt else 0) entries (ivo_init opt)

/-- The `--path`/`--command` segment of one printed line (as emitted by the
first `append_switch` call of `complete_print`). -/
def seg_cmd (e : completion_entry_t) : WStr :=
  if e.cmd = [] then []
  else (if e.cmd_is_path then " --path ".data else " --command ".data) ++ escape_str e.cmd

/-- The `--short-option` segment of one printed line. -/
def seg_short (o : complete_entry_opt_t) : WStr :=
  if o.short_opt = nulChar then []
  else " --short-option ".data ++ [quoteChar, o.short_opt, quoteChar]

/-- The `--old-option`/`--long-option` segment of one printed line. -/
def seg_long (o : complete_entry_opt_t) : WStr :=
  if o.long_opt = [] then []
  else (if o.old_mode then " --old-option ".data else " --long-option ".data) ++
    escape_str o.long_opt

/-- A generic valued-switch segment of one printed line (description,
arguments, condition): omitted when the value is empty. -/
def seg_val (name v : WStr) : WStr :=
  if v = [] then [] else name ++ escape_str v

/-- Head shape of the text that follows a consumed segment: either the final
newline or some later switch text with a head drawn from the allowed set.
Used to show that an absent optional switch cannot be mistaken for a later
one. -/
def seg_head_ok (allowed : List Char) (s : WStr) : Prop :=
  s.head? = some nlChar ∨ ∃ x ∈ allowed, ∃ t, s = ' ' :: '-' :: '-' :: x :: t

lemma bool_eq_false_of_ne_true {b : Bool} (h : ¬ b = true) : b = false := by
  cases b
  · rfl
  · exact absurd rfl h

lemma resolve_auto_space_auto (comp : WStr) (flags : complete_flags_t) :
    (resolve_auto_space comp flags).auto_space = false := by
  unfold resolve_auto_space
  by_cases h : flags.auto_space = true
  · simp only [h, if_true]
    cases comp.getLast? with
    | none => rfl
    | some c => by_cases hm : c ∈ auto_space_last_chars <;> simp [hm]
  · simp [bool_eq_false_of_ne_true h]

lemma resolve_auto_space_no_space (comp : WStr) (flags : complete_flags_t) :
    ((resolve_auto_space comp flags).no_space = true ↔
      flags.no_space = true ∨ (flags.auto_space = true ∧
        ∃ c, comp.getLast? = some c ∧ c ∈ auto_space_last_chars)) := by
  unfold resolve_auto_space
  by_cases h : flags.auto_space = true
  · simp only [h, if_true]
    cases hl : comp.getLast? with
    | none => simp
    | some c =>
      by_cases hm : c ∈ auto_space_last_chars
      · simp only [hm, if_true]
        constructor
        · intro _
          exact Or.inr ⟨trivial, c, rfl, hm⟩
        · intro _
          trivial
      · simp only [hm, if_false]
        constructor
        · intro hns
          exact Or.inl hns
        · intro hd
          cases hd with
          | inl hns => exact hns
          | inr hr =>
            obtain ⟨_, x, hx, hxm⟩ := hr
            cases hx
            exact absurd hxm hm
  · have h2 := bool_eq_false_of_ne_true h
    simp [h2]

lemma resolve_auto_space_of_auto_false (comp : WStr) (flags : complete_flags_t)
    (h : flags.auto_space = false) : resolve_auto_space comp flags = flags := by
  unfold resolve_auto_space
  simp [h]

/-- Claim C6: every candidate constructed by the engine (through the
`completion_t` constructor or `append_completion`) has AUTO_SPACE absent from
its flags, and has NO_SPACE present iff NO_SPACE was explicitly passed at
construction or AUTO_SPACE was passed and the candidate text ends in one of
`/ = @ :`. -/
theorem claim_C6 (cs : List completion_t) (comp desc : WStr)
    (flags : complete_flags_t) (mat : string_fuzzy_match_t) :
    ((completion_mk comp desc mat flags).flags.auto_space = false ∧
      ((completion_mk comp desc mat flags).flags.no_space = true ↔
        flags.no_space = true ∨ (flags.auto_space = true ∧
          ∃ c, comp.getLast? = some c ∧ c ∈ auto_space_last_chars))) ∧
    ∃ cand : completion_t,
      append_completion cs comp desc flags mat = cs ++ [cand] ∧
      cand.completion = comp ∧ cand.description = desc ∧
      cand.flags.auto_space = false ∧
      (cand.flags.no_space = true ↔
        flags.no_space = true ∨ (flags.auto_space = true ∧
          ∃ c, comp.getLast? = some c ∧ c ∈ auto_space_last_chars)) := by
  have hmk : (completion_mk comp desc mat flags).flags = resolve_auto_space comp flags := rfl
  refine ⟨⟨by rw [hmk]; exact resolve_auto_space_auto comp flags,
           by rw [hmk]; exact resolve_auto_space_no_space comp flags⟩, ?_⟩
  refine ⟨_, rfl, rfl, rfl, ?_, ?_⟩
  · show (completion_mk [] [] mat (resolve_auto_space comp flags)).flags.auto_space = false
    rw [show (completion_mk [] [] mat (resolve_auto_space comp flags)).flags =
        resolve_auto_space [] (resolve_auto_space comp flags) from rfl]
    rw [resolve_auto_space_of_auto_false _ _ (resolve_auto_space_auto comp flags)]
    exact resolve_auto_space_auto comp flags
  · show (completion_mk [] [] mat (resolve_auto_space comp flags)).flags.no_space = true ↔ _
    rw [show (completion_mk [] [] mat (resolve_auto_space comp flags)).flags =
        resolve_auto_space [] (resolve_auto_space comp flags) from rfl]
    rw [resolve_auto_space_of_auto_false _ _ (resolve_auto_space_auto comp flags)]
    exact resolve_auto_space_no_space comp flags

lemma cache_lookup_append (cache : List (WStr × Bool)) (c : WStr) (v : Bool) (s : WStr) :
    cache_lookup (cache ++ [(c, v)]) s =
      match cache_lookup cache s with
      | some b => some b
      | none => if c = s then some v else none := by
  induction cache with
  | nil => simp [cache_lookup]
  | cons p rest ih =>
    by_cases h : p.1 = s
    · simp [cache_lookup, h]
    · simp only [List.cons_append, cache_lookup, h, if_false]
      exact ih

lemma run_conditions_default (ex : WStr → Bool) :
    ∀ (conds : List WStr) (cache : List (WStr × Bool)),
      (∀ s b, cache_lookup cache s = some b → b = ex s) →
      (run_conditions false ex conds cache).1 =
          conds.map (fun c => if c = [] then true else ex c) ∧
        (run_conditions false ex conds cache).2.2.Nodup ∧
        (∀ s ∈ (run_conditions false ex conds cache).2.2,
          cache_lookup cache s = none ∧ s ≠ []) ∧
        (∀ s b, cache_lookup (run_conditions false ex conds cache).2.1 s = some b →
          b = ex s) := by
  intro conds
  induction conds with
  | nil =>
    intro cache hc
    refine ⟨rfl, List.nodup_nil, ?_, hc⟩
    intro s hs
    exact absurd hs (List.not_mem_nil s)
  | cons c rest ih =>
    intro cache hc
    by_cases hce : c = []
    · subst hce
      have step : condition_test false ex cache [] = (true, cache, []) := rfl
      obtain ⟨h1, h2, h3, h4⟩ := ih cache hc
      refine ⟨?_, ?_, ?_, ?_⟩
      · simp only [run_conditions, step, h1, List.map_cons]
        simp
      · simpa only [run_conditions, step, List.nil_append] using h2
      · simpa only [run_conditions, step, List.nil_append] using h3
      · simpa only [run_conditions, step] using h4
    · cases hl : cache_lookup cache c with
      | some b =>
        have step : condition_test false ex cache c = (b, cache, []) := by
          simp [condition_test, hce, hl]
        obtain ⟨h1, h2, h3, h4⟩ := ih cache hc
        refine ⟨?_, ?_, ?_, ?_⟩
        · simp only [run_conditions, step, h1, List.map_cons, if_neg hce]
          rw [hc c b hl]
        · simpa only [run_conditions, step, List.nil_append] using h2
        · simpa only [run_conditions, step, List.nil_append] using h3
        · simpa only [run_conditions, step] using h4
      | none =>
        have step : condition_test false ex cache c =
            (ex c, cache ++ [(c, ex c)], [c]) := by
          simp [condition_test, hce, hl]
        have hc2 : ∀ s b, cache_lookup (cache ++ [(c, ex c)]) s = some b → b = ex s := by
          intro s b hs
          rw [cache_lookup_append] at hs
          cases hll : cache_lookup cache s with
          | some b2 =>
            rw [hll] at hs
            cases hs
            exact hc s b hll
          | none =>
            rw [hll] at hs
            by_cases hcs : c = s
            · rw [if_pos hcs] at hs
              cases hs
              rw [hcs]
            · rw [if_neg hcs] at hs
              cases hs
        obtain ⟨h1, h2, h3, h4⟩ := ih (cache ++ [(c, ex c)]) hc2
        have hnotin : c ∉ (run_conditions false ex rest (cache ++ [(c, ex c)])).2.2 := by
          intro hmem
          have := (h3 c hmem).1
          rw [cache_lookup_append, hl] at this
          simp at this
        refine ⟨?_, ?_, ?_, ?_⟩
        · simp only [run_conditions, step, h1, List.map_cons, if_neg hce]
        · simpa only [run_conditions, step, List.singleton_append, List.nodup_cons]
            using ⟨hnotin, h2⟩
        · simp only [run_conditions, step, List.singleton_append]
          intro s hs
          cases hs with
          | head => exact ⟨hl, hce⟩
          | tail _ hmem =>
            obtain ⟨hnone, hne⟩ := h3 s hmem
            rw [cache_lookup_append] at hnone
            refine ⟨?_, hne⟩
            cases hll : cache_lookup cache s with
            | some b2 =>
              rw [hll] at hnone
              cases hnone
            | none => rfl
        · simpa only [run_conditions, step] using h4

lemma run_conditions_autosuggest (ex : WStr → Bool) :
    ∀ (conds : List WStr) (cache : List (WStr × Bool)),
      (run_conditions true ex conds cache).1 = conds.map (fun c => decide (c = [])) ∧
        (run_conditions true ex conds cache).2.2 = [] ∧
        (run_conditions true ex conds cache).2.1 = cache := by
  intro conds
  induction conds with
  | nil => intro cache; exact ⟨rfl, rfl, rfl⟩
  | cons c rest ih =>
    intro cache
    obtain ⟨h1, h2, h3⟩ := ih cache
    by_cases hce : c = []
    · subst hce
      have step : condition_test true ex cache [] = (true, cache, []) := rfl
      refine ⟨?_, ?_, ?_⟩
      · simp only [run_conditions, step, h1, List.map_cons]
        simp
      · simpa only [run_conditions, step, List.nil_append] using h2
      · simpa only [run_conditions, step] using h3
    · have step : condition_test true ex cache c = (false, cache, []) := by
        simp [condition_test, hce]
      refine ⟨?_, ?_, ?_⟩
      · simp only [run_conditions, step, h1, List.map_cons]
        simp [hce]
      · simpa only [run_conditions, step, List.nil_append] using h2
      · simpa only [run_conditions, step] using h3

/-- Claim C5: within one session (cache threaded from empty), an empty
condition source yields true; in autosuggest mode every non-empty source
yields false and no subshell runs at all; otherwise each call yields the
subshell verdict of its source, and the cumulative subshell log contains no
source twice and never the empty source — so options sharing one condition
cause at most one subshell evaluation. -/
theorem claim_C5 (ex : WStr → Bool) (conds : List WStr) :
    (run_conditions false ex conds []).1 =
        conds.map (fun c => if c = [] then true else ex c) ∧
      (run_conditions false ex conds []).2.2.Nodup ∧
      (∀ s ∈ (run_conditions false ex conds []).2.2, s ≠ []) ∧
      (run_conditions true ex conds []).1 = conds.map (fun c => decide (c = [])) ∧
      (run_conditions true ex conds []).2.2 = [] := by
  have hc : ∀ s b, cache_lookup ([] : List (WStr × Bool)) s = some b → b = ex s := by
    intro s b hs
    cases hs
  obtain ⟨h1, h2, h3, _⟩ := run_conditions_default ex conds [] hc
  obtain ⟨h5, h6, _⟩ := run_conditions_autosuggest ex conds []
  exact ⟨h1, h2, fun s hs => (h3 s hs).2, h5, h6⟩

lemma foldl_filter_of_skip {α β : Type} (f : β → α → β) (g : α → Bool)
    (h : ∀ b a, g a = false → f b a = b) :
    ∀ (l : List α) (b : β), l.foldl f b = (l.filter g).foldl f b := by
  intro l
  induction l with
  | nil => intro b; rfl
  | cons a rest ih =>
    intro b
    by_cases hg : g a = true
    · simp only [List.foldl_cons, List.filter_cons, hg, if_true]
      exact ih (f b a)
    · have hg2 : g a = false := bool_eq_false_of_ne_true hg
      simp only [List.foldl_cons, List.filter_cons, hg2, h b a hg2]
      simp only [Bool.false_eq_true, if_false]
      exact ih b

/-- Claim C10: when descriptions are requested, the variable completer
behaves exactly as if every name missing from the environment had been
dropped from the name list — such names are skipped entirely, emitting no
candidate, even when they fuzzy-match the query (names injected through
`complete_set_variable_names` included). -/
theorem claim_C10 (req : request_flags_t) (env_get : WStr → Option WStr)
    (esc_var : WStr → WStr) (fmatch : WStr → WStr → fuzzy_match_type_t)
    (names : List WStr) (str : WStr) (start_offset : Nat)
    (hdesc : req.descriptions = true) :
    complete_variable_m req env_get esc_var fmatch names str start_offset =
      complete_variable_m req env_get esc_var fmatch
        (names.filter (fun n => (env_get n).isSome)) str start_offset := by
  unfold complete_variable_m
  apply foldl_filter_of_skip
  intro b a hg
  have henv : env_get a = none := by
    cases he : env_get a with
    | none => rfl
    | some v =>
      rw [he] at hg
      cases hg
  by_cases hm : fmatch (str.drop start_offset) a = .noMatch
  · simp [hm]
  · simp [hm, hdesc, henv]

/-- Witness for claim C10 at a concrete session: the one injected name is
absent from the (empty) environment, so the completer emits nothing. -/
theorem claim_C10_witness :
    (complete_variable_m ⟨true, false, false⟩ (fun _ => none) (fun s => s)
        (fun _ _ => .exact) [['A']] [] 0 =
      complete_variable_m ⟨true, false, false⟩ (fun _ => none) (fun s => s)
        (fun _ _ => .exact) ([['A']].filter (fun n => ((fun _ => none : WStr → Option WStr) n).isSome)) [] 0) ∧
    (complete_variable_m ⟨true, false, false⟩ (fun _ => none) (fun s => s)
        (fun _ _ => .exact) [['A']] [] 0).1 = [] := by
  constructor
  · exact claim_C10 ⟨true, false, false⟩ (fun _ => none) (fun s => s)
      (fun _ _ => .exact) [['A']] [] 0 rfl
  · rfl

lemma remove_matching_options_fst (short : Char) (long : Option WStr) :
    ∀ (opts : List complete_entry_opt_t) (s : WStr),
      (remove_matching_options short long opts s).1 =
        opts.filter (fun o => !removal_match short long o) := by
  intro opts
  induction opts with
  | nil => intro s; rfl
  | cons o rest ih =>
    intro s
    by_cases h : removal_match short long o = true
    · simp only [remove_matching_options, h, if_true, List.filter_cons, Bool.not_true,
        Bool.false_eq_true, if_false]
      exact ih _
    · have h2 := bool_eq_false_of_ne_true h
      simp only [remove_matching_options, h2, Bool.false_eq_true, if_false,
        List.filter_cons, Bool.not_false, if_true]
      rw [ih s]

lemma key_match_entry_key {e : completion_entry_t} {cmd : WStr} {p : Bool} :
    key_match e cmd p = true ↔ e.cmd_is_path = p ∧ e.cmd = cmd := by
  simp [key_match]

lemma find_entry_cons_pos {e0 : completion_entry_t} {rest : List completion_entry_t}
    {cmd : WStr} {p : Bool} (h : key_match e0 cmd p = true) :
    complete_find_entry (e0 :: rest) cmd p = some e0 := by
  simp [complete_find_entry, List.find?_cons, h]

lemma find_entry_cons_neg {e0 : completion_entry_t} {rest : List completion_entry_t}
    {cmd : WStr} {p : Bool} (h : key_match e0 cmd p = false) :
    complete_find_entry (e0 :: rest) cmd p = complete_find_entry rest cmd p := by
  simp [complete_find_entry, List.find?_cons, h]

lemma find_none_of_no_key {entries : List completion_entry_t} {cmd : WStr} {p : Bool}
    (h : ∀ x ∈ entries, ¬ (x.cmd_is_path = p ∧ x.cmd = cmd)) :
    complete_find_entry entries cmd p = none := by
  apply List.find?_eq_none.mpr
  intro x hx hk
  exact h x hx (key_match_entry_key.mp hk)

lemma remove_option_entry_fields (e : completion_entry_t) (short : Char) (long : Option WStr) :
    (remove_option_entry e short long).1.cmd = e.cmd ∧
      (remove_option_entry e short long).1.cmd_is_path = e.cmd_is_path ∧
      (remove_option_entry e short long).1.authoritative = e.authoritative ∧
      (remove_option_entry e short long).1.order = e.order := by
  unfold remove_option_entry
  by_cases h : short = nulChar ∧ long = none <;> simp [h]

lemma remove_option_entry_not_absent (e : completion_entry_t) (short : Char)
    (long : Option WStr) (h : ¬ (short = nulChar ∧ long = none)) :
    (remove_option_entry e short long).1.options =
        e.options.filter (fun o => !removal_match short long o) ∧
      (remove_option_entry e short long).2 =
        (e.options.filter (fun o => !removal_match short long o)).isEmpty := by
  unfold remove_option_entry
  simp [h, remove_matching_options_fst]

/-- Claim C1: removing against a stored schema clears every option (and hence
deletes the schema) when both identifiers are absent; otherwise exactly the
options whose short letter equals the given `short_opt` or whose long option
equals the given `long_opt` are removed (sentinel values compare literally,
as in the code); the schema is deleted exactly when its option list became
empty; schemas under other keys are untouched. -/
theorem claim_C1 (entries : List completion_entry_t) (cmd : WStr) (p : Bool)
    (short : Char) (long : Option WStr) (e : completion_entry_t)
    (hu : unique_keys entries)
    (hfind : complete_find_entry entries cmd p = some e) :
    ((short = nulChar ∧ long = none) →
        complete_find_entry (remove_in_entries cmd p short long entries) cmd p = none) ∧
      (¬ (short = nulChar ∧ long = none) →
        (e.options.filter (fun o => !removal_match short long o) = [] →
            complete_find_entry (remove_in_entries cmd p short long entries) cmd p = none) ∧
          (e.options.filter (fun o => !removal_match short long o) ≠ [] →
            ∃ e2,
              complete_find_entry (remove_in_entries cmd p short long entries) cmd p = some e2 ∧
                e2.options = e.options.filter (fun o => !removal_match short long o) ∧
                e2.cmd = e.cmd ∧ e2.cmd_is_path = e.cmd_is_path ∧
                e2.authoritative = e.authoritative ∧ e2.order = e.order)) ∧
      (∀ cmd2 p2, ¬ (cmd2 = cmd ∧ p2 = p) →
        complete_find_entry (remove_in_entries cmd p short long entries) cmd2 p2 =
          complete_find_entry entries cmd2 p2) := by
  induction entries with
  | nil => exact absurd hfind (by simp [complete_find_entry])
  | cons e0 rest ih =>
    have hu2 : (List.map entry_key (e0 :: rest)).Nodup := hu
    rw [List.map_cons] at hu2
    have hpair := List.nodup_cons.mp hu2
    by_cases hk : key_match e0 cmd p = true
    · obtain ⟨hkp, hkc⟩ := key_match_entry_key.mp hk
      have he : e0 = e := by
        rw [find_entry_cons_pos hk] at hfind
        exact Option.some.inj hfind
      subst he
      have hnok : ∀ x ∈ rest, ¬ (x.cmd_is_path = p ∧ x.cmd = cmd) := by
        intro x hx hcontra
        have hmem : entry_key x ∈ rest.map entry_key := List.mem_map_of_mem entry_key hx
        have hx0 : entry_key x = entry_key e0 := by
          simp [entry_key, hcontra.1, hcontra.2, hkp, hkc]
        rw [hx0] at hmem
        exact hpair.1 hmem
      refine ⟨?_, ?_, ?_⟩
      · intro hboth
        have hre : remove_option_entry e0 short long = ({ e0 with options := [] }, true) := by
          unfold remove_option_entry
          simp [hboth]
        simp only [remove_in_entries, hk, if_true, hre]
        exact find_none_of_no_key hnok
      · intro hnboth
        obtain ⟨hopts, hempty⟩ := remove_option_entry_not_absent e0 short long hnboth
        constructor
        · intro hfil
          have hre2 : (remove_option_entry e0 short long).2 = true := by
            rw [hempty, hfil]
            rfl
          simp only [remove_in_entries, hk, if_true, hre2, if_true]
          exact find_none_of_no_key hnok
        · intro hfil
          have hre2 : (remove_option_entry e0 short long).2 = false := by
            rw [hempty]
            cases hc : e0.options.filter (fun o => !removal_match short long o) with
            | nil => exact absurd hc hfil
            | cons a l => rfl
          obtain ⟨hc1, hc2, hc3, hc4⟩ := remove_option_entry_fields e0 short long
          refine ⟨(remove_option_entry e0 short long).1, ?_, hopts, hc1, hc2, hc3, hc4⟩
          simp only [remove_in_entries, hk, if_true, hre2, Bool.false_eq_true, if_false]
          apply find_entry_cons_pos
          apply key_match_entry_key.mpr
          rw [hc1, hc2]
          exact ⟨hkp, hkc⟩
      · intro cmd2 p2 h2
        have hk2 : key_match e0 cmd2 p2 = false := by
          apply bool_eq_false_of_ne_true
          intro hkk
          obtain ⟨ha, hb⟩ := key_match_entry_key.mp hkk
          exact h2 ⟨by rw [← hb, hkc], by rw [← ha, hkp]⟩
        rw [find_entry_cons_neg hk2]
        cases hre : (remove_option_entry e0 short long).2 with
        | true => simp only [remove_in_entries, hk, if_true, hre, if_true]
        | false =>
          obtain ⟨hc1, hc2, _, _⟩ := remove_option_entry_fields e0 short long
          have hk3 : key_match (remove_option_entry e0 short long).1 cmd2 p2 = false := by
            apply bool_eq_false_of_ne_true
            intro hkk
            obtain ⟨ha, hb⟩ := key_match_entry_key.mp hkk
            rw [hc1] at hb
            rw [hc2] at ha
            exact h2 ⟨by rw [← hb, hkc], by rw [← ha, hkp]⟩
          simp only [remove_in_entries, hk, if_true, hre, Bool.false_eq_true, if_false]
          rw [find_entry_cons_neg hk3]
    · have hk2 := bool_eq_false_of_ne_true hk
      have hfind2 : complete_find_entry rest cmd p = some e := by
        rw [find_entry_cons_neg hk2] at hfind
        exact hfind
      obtain ⟨ih1, ih2, ih3⟩ := ih hpair.2 hfind2
      have hskip : remove_in_entries cmd p short long (e0 :: rest) =
          e0 :: remove_in_entries cmd p short long rest := by
        simp only [remove_in_entries, hk2, Bool.false_eq_true, if_false]
      refine ⟨?_, ?_, ?_⟩
      · intro hboth
        rw [hskip, find_entry_cons_neg hk2]
        exact ih1 hboth
      · intro hnboth
        obtain ⟨iha, ihb⟩ := ih2 hnboth
        constructor
        · intro hfil
          rw [hskip, find_entry_cons_neg hk2]
          exact iha hfil
        · intro hfil
          obtain ⟨e2, hf, hrest⟩ := ihb hfil
          refine ⟨e2, ?_, hrest⟩
          rw [hskip, find_entry_cons_neg hk2]
          exact hf
      · intro cmd2 p2 hne
        rw [hskip]
        by_cases hk3 : key_match e0 cmd2 p2 = true
        · rw [find_entry_cons_pos hk3, find_entry_cons_pos hk3]
        · have hk4 := bool_eq_false_of_ne_true hk3
          rw [find_entry_cons_neg hk4, find_entry_cons_neg hk4]
          exact ih3 cmd2 p2 hne

/-- Witness for claim C1: removing by the short letter a from the stored
schema of `c1_entry` keeps exactly the long-only option. -/
theorem claim_C1_witness :
    unique_keys [c1_entry] ∧
      complete_find_entry [c1_entry] ['g'] false = some c1_entry ∧
      ∃ e2,
        complete_find_entry (remove_in_entries ['g'] false 'a' none [c1_entry]) ['g'] false =
            some e2 ∧
          e2.options = [c1_optB] := by
  have huk : unique_keys [c1_entry] := by
    simp [unique_keys]
  have h := claim_C1 [c1_entry] ['g'] false 'a' none c1_entry huk (by rfl)
  have hfil : c1_entry.options.filter (fun o => !removal_match 'a' none o) = [c1_optB] := by
    decide
  obtain ⟨e2, hf, hopts, _⟩ := (h.2.1 (by decide)).2 (by rw [hfil]; decide)
  exact ⟨huk, rfl, e2, hf, by rw [hopts, hfil]⟩

lemma insert_entry_perm (e : completion_entry_t) :
    ∀ l : List completion_entry_t, List.Perm (insert_entry e l) (e :: l) := by
  intro l
  induction l with
  | nil => exact List.Perm.refl _
  | cons x xs ih =>
    by_cases h : entry_lt e x = true
    · simp [insert_entry, h]
    · have h2 := bool_eq_false_of_ne_true h
      simp only [insert_entry, h2, Bool.false_eq_true, if_false]
      exact (ih.cons x).trans (List.Perm.swap e x xs)

lemma update_first_keys (cmd : WStr) (p : Bool) (f : completion_entry_t → completion_entry_t)
    (hf : ∀ x, entry_key (f x) = entry_key x) :
    ∀ l, (update_first cmd p f l).map entry_key = l.map entry_key := by
  intro l
  induction l with
  | nil => rfl
  | cons x xs ih =>
    by_cases h : key_match x cmd p = true
    · simp [update_first, h, hf]
    · have h2 := bool_eq_false_of_ne_true h
      simp [update_first, h2, ih]

lemma remove_in_entries_keys_sublist (cmd : WStr) (p : Bool) (short : Char)
    (long : Option WStr) :
    ∀ l, ((remove_in_entries cmd p short long l).map entry_key).Sublist
      (l.map entry_key) := by
  intro l
  induction l with
  | nil => simp [remove_in_entries]
  | cons x xs ih =>
    by_cases h : key_match x cmd p = true
    · cases hre : (remove_option_entry x short long).2 with
      | true =>
        simp only [remove_in_entries, h, if_true, hre, if_true, List.map_cons]
        exact List.sublist_cons_self _ _
      | false =>
        have hkeq : entry_key (remove_option_entry x short long).1 = entry_key x := by
          obtain ⟨hc1, hc2, _, _⟩ := remove_option_entry_fields x short long
          simp [entry_key, hc1, hc2]
        simp only [remove_in_entries, h, if_true, hre, Bool.false_eq_true, if_false,
          List.map_cons, hkeq]
        exact List.Sublist.cons₂ _ (List.Sublist.refl _)
    · have h2 := bool_eq_false_of_ne_true h
      simp only [remove_in_entries, h2, Bool.false_eq_true, if_false, List.map_cons]
      exact List.Sublist.cons₂ _ ih

lemma find_none_key_notmem {entries : List completion_entry_t} {cmd : WStr} {p : Bool}
    (h : complete_find_entry entries cmd p = none) :
    (p, cmd) ∉ entries.map entry_key := by
  intro hmem
  obtain ⟨x, hx, hkx⟩ := List.mem_map.mp hmem
  have hnk := List.find?_eq_none.mp h x hx
  apply hnk
  apply key_match_entry_key.mpr
  have h1 : x.cmd_is_path = p := congrArg Prod.fst hkx
  have h2 : x.cmd = cmd := congrArg Prod.snd hkx
  exact ⟨h1, h2⟩

lemma get_or_create_unique (st : comp_store) (cmd : WStr) (p : Bool)
    (h : unique_keys st.entries) :
    unique_keys (store_get_or_create st cmd p).entries := by
  unfold store_get_or_create
  cases hf : complete_find_entry st.entries cmd p with
  | some e => exact h
  | none =>
    have hperm := insert_entry_perm (blank_entry cmd p (st.counter + 1)) st.entries
    have hperm2 := hperm.map entry_key
    apply (hperm2.nodup_iff).mpr
    rw [List.map_cons]
    apply List.nodup_cons.mpr
    refine ⟨?_, h⟩
    have : entry_key (blank_entry cmd p (st.counter + 1)) = (p, cmd) := rfl
    rw [this]
    exact find_none_key_notmem hf

lemma entry_add_option_key (short : Char) (mode : Nat) (opt : complete_entry_opt_t)
    (e : completion_entry_t) :
    entry_key (entry_add_option short mode opt e) = entry_key e := by
  unfold entry_add_option
  by_cases h : short ≠ nulChar <;> simp [h, entry_key]

lemma unique_keys_apply_op (st : comp_store) (op : store_op)
    (h : unique_keys st.entries) : unique_keys (apply_op st op).entries := by
  cases op with
  | op_add cmd p short long old mode cond comp desc flags =>
    have h2 := get_or_create_unique st cmd p h
    show unique_keys (update_first cmd p _ (store_get_or_create st cmd p).entries)
    unfold unique_keys
    rw [update_first_keys cmd p _ (fun x => entry_add_option_key short mode _ x)]
    exact h2
  | op_remove cmd p short long =>
    have hsub := remove_in_entries_keys_sublist cmd p short long st.entries
    exact List.Nodup.sublist hsub h
  | op_set_auth cmd p auth =>
    have h2 := get_or_create_unique st cmd p h
    show unique_keys (update_first cmd p _ (store_get_or_create st cmd p).entries)
    unfold unique_keys
    rw [update_first_keys cmd p _ (fun x => by simp [entry_key])]
    exact h2

/-- Claim C7: starting from the empty store, any sequence of `complete_add`,
`complete_remove` and `complete_set_authoritative` calls leaves at most one
schema per `(cmd_is_path, cmd)` key. -/
theorem claim_C7 (ops : List store_op) :
    unique_keys (apply_ops ops empty_store).entries := by
  suffices h : ∀ (l : List store_op) (st : comp_store),
      unique_keys st.entries → unique_keys (apply_ops l st).entries by
    exact h ops empty_store (by simp [unique_keys, empty_store])
  intro l
  induction l with
  | nil => intro st h; exact h
  | cons op rest ih =>
    intro st h
    exact ih _ (unique_keys_apply_op st op h)

/-- Counterexample for claim C2 as stated: under the claim's skip test (which
additionally requires a non-empty arg_spec) the option `--foo` with empty
arg_spec and NO_FILES would be tested against the previous token and clear
`use_files`, but the code skips it purely on (GNU, long present, NO_COMMON
unset), so the matcher returns true where the claim's reading returns
false. -/
theorem claim_C2_counterexample :
    (complete_param_snaps (fun _ => true) ['-', '-', 'f', 'o', 'o'] [] true [c2_snap]).1 =
        true ∧
      (complete_param_snaps_claimC2 (fun _ => true) ['-', '-', 'f', 'o', 'o'] [] true
          [c2_snap]).1 = false := by
  constructor
  · rfl
  · rfl

/-- Claim C2 (amended): in the previous-token pass, an option is skipped
exactly when `old_mode` is false, the long option is non-empty and NO_COMMON
is unset (the arg_spec plays no role); every other option is tested against
the previous token through `param_match`.  Formally: the scan equals the
unfiltered scan over exactly the non-skipped options. -/
theorem claim_C2 (cond : WStr → Bool) (popt str : WStr)
    (opts : List complete_entry_opt_t) (uc uf : Bool) (ev : List param_event) :
    process_branchB_rest gnu_optional_skip cond popt str opts uc uf ev =
      process_branchB_rest (fun _ => false) cond popt str
        (opts.filter (fun o => !gnu_optional_skip o)) uc uf ev := by
  induction opts generalizing uc uf ev with
  | nil => rfl
  | cons o rest ih =>
    by_cases h : gnu_optional_skip o = true
    · simp only [process_branchB_rest, h, if_true, List.filter_cons, Bool.not_true,
        Bool.false_eq_true, if_false]
      exact ih uc uf ev
    · have h2 := bool_eq_false_of_ne_true h
      simp only [process_branchB_rest, h2, Bool.false_eq_true, if_false, List.filter_cons,
        Bool.not_false, if_true]
      by_cases hm : (param_match o popt && cond o.condition) = true
      · simp only [hm, if_true]
        exact ih _ _ _
      · have hm2 := bool_eq_false_of_ne_true hm
        simp only [hm2, Bool.false_eq_true, if_false]
        exact ih uc uf ev

lemma if_false_and (c : Prop) [Decidable c] (b : Bool) :
    (if c then false else b) = (b && (if c then false else true)) := by
  by_cases h : c <;> simp [h]

lemma apply_result_mode_split (mode : Nat) (uc uf : Bool) :
    apply_result_mode mode uc uf =
      (uc && (apply_result_mode mode true true).1,
       uf && (apply_result_mode mode true true).2) := by
  unfold apply_result_mode
  by_cases h1 : mode &&& NO_COMMON ≠ 0 <;> by_cases h2 : mode &&& NO_FILES ≠ 0 <;>
    simp [h1, h2]

lemma process_branchA_split (cond : WStr → Bool) (str : WStr) :
    ∀ (opts : List complete_entry_opt_t) (uc uf : Bool) (ev : List param_event),
      process_branchA cond str opts uc uf ev =
        (uc && (process_branchA cond str opts true true []).1,
         uf && (process_branchA cond str opts true true []).2.1,
         ev ++ (process_branchA cond str opts true true []).2.2) := by
  intro opts
  induction opts with
  | nil => intro uc uf ev; simp [process_branchA]
  | cons o rest ih =>
    intro uc uf ev
    cases hm : param_match2 o str with
    | none =>
      simp only [process_branchA, hm]
      exact ih uc uf ev
    | some arg =>
      by_cases hc : cond o.condition = true
      · simp only [process_branchA, hm, hc, if_true]
        rw [ih (apply_result_mode o.result_mode uc uf).1 (apply_result_mode o.result_mode uc uf).2
            (ev ++ [param_event.from_args arg o.comp o.desc o.flags])]
        rw [ih (apply_result_mode o.result_mode true true).1
            (apply_result_mode o.result_mode true true).2
            ([] ++ [param_event.from_args arg o.comp o.desc o.flags])]
        rw [apply_result_mode_split o.result_mode uc uf]
        simp [Bool.and_assoc, List.append_assoc]
      · have hc2 := bool_eq_false_of_ne_true hc
        simp only [process_branchA, hm, hc2, Bool.false_eq_true, if_false]
        exact ih uc uf ev

lemma process_branchB_old_split (cond : WStr → Bool) (popt str : WStr) :
    ∀ (opts : List complete_entry_opt_t) (osm uc uf : Bool) (ev : List param_event),
      process_branchB_old cond popt str opts osm uc uf ev =
        ((osm || (process_branchB_old cond popt str opts false true true []).1),
         uc && (process_branchB_old cond popt str opts false true true []).2.1,
         uf && (process_branchB_old cond popt str opts false true true []).2.2.1,
         ev ++ (process_branchB_old cond popt str opts false true true []).2.2.2) := by
  intro opts
  induction opts with
  | nil =>
    intro osm uc uf ev
    simp [process_branchB_old]
  | cons o rest ih =>
    intro osm uc uf ev
    by_cases ho : o.old_mode = true
    · by_cases hm : (param_match_old o popt && cond o.condition) = true
      · simp only [process_branchB_old, ho, if_true, hm]
        rw [ih true (apply_result_mode o.result_mode uc uf).1
            (apply_result_mode o.result_mode uc uf).2
            (ev ++ [param_event.from_args str o.comp o.desc o.flags])]
        rw [ih true (apply_result_mode o.result_mode true true).1
            (apply_result_mode o.result_mode true true).2
            ([] ++ [param_event.from_args str o.comp o.desc o.flags])]
        rw [apply_result_mode_split o.result_mode uc uf]
        simp [Bool.and_assoc, List.append_assoc]
      · have hm2 := bool_eq_false_of_ne_true hm
        simp only [process_branchB_old, ho, if_true, hm2, Bool.false_eq_true, if_false]
        exact ih osm uc uf ev
    · have ho2 := bool_eq_false_of_ne_true ho
      simp only [process_branchB_old, ho2, Bool.false_eq_true, if_false]
      exact ih osm uc uf ev

lemma process_branchB_rest_split (skip : complete_entry_opt_t → Bool) (cond : WStr → Bool)
    (popt str : WStr) :
    ∀ (opts : List complete_entry_opt_t) (uc uf : Bool) (ev : List param_event),
      process_branchB_rest skip cond popt str opts uc uf ev =
        (uc && (process_branchB_rest skip cond popt str opts true true []).1,
         uf && (process_branchB_rest skip cond popt str opts true true []).2.1,
         ev ++ (process_branchB_rest skip cond popt str opts true true []).2.2) := by
  intro opts
  induction opts with
  | nil => intro uc uf ev; simp [process_branchB_rest]
  | cons o rest ih =>
    intro uc uf ev
    by_cases hs : skip o = true
    · simp only [process_branchB_rest, hs, if_true]
      exact ih uc uf ev
    · have hs2 := bool_eq_false_of_ne_true hs
      by_cases hm : (param_match o popt && cond o.condition) = true
      · simp only [process_branchB_rest, hs2, Bool.false_eq_true, if_false, hm, if_true]
        rw [ih (apply_result_mode o.result_mode uc uf).1 (apply_result_mode o.result_mode uc uf).2
            (ev ++ [param_event.from_args str o.comp o.desc o.flags])]
        rw [ih (apply_result_mode o.result_mode true true).1
            (apply_result_mode o.result_mode true true).2
            ([] ++ [param_event.from_args str o.comp o.desc o.flags])]
        rw [apply_result_mode_split o.result_mode uc uf]
        simp [Bool.and_assoc, List.append_assoc]
      · have hm2 := bool_eq_false_of_ne_true hm
        simp only [process_branchB_rest, hs2, Bool.false_eq_true, if_false, hm2]
        exact ih uc uf ev

set_option maxHeartbeats 1600000 in
lemma common_pass_opt_split (cond : WStr → Bool) (str : WStr) (usw : Bool) (sos : WStr)
    (o : complete_entry_opt_t) (uf : Bool) (ev : List param_event) :
    common_pass_opt cond str usw sos o uf ev =
      (uf && (common_pass_opt cond str usw sos o true []).1,
       ev ++ (common_pass_opt cond str usw sos o true []).2) := by
  simp only [common_pass_opt]
  split_ifs <;> simp [Bool.and_assoc, List.append_assoc]

lemma process_common_split (cond : WStr → Bool) (str : WStr) (usw : Bool) (sos : WStr) :
    ∀ (opts : List complete_entry_opt_t) (uf : Bool) (ev : List param_event),
      process_common cond str usw sos opts uf ev =
        (uf && (process_common cond str usw sos opts true []).1,
         ev ++ (process_common cond str usw sos opts true []).2) := by
  intro opts
  induction opts with
  | nil => intro uf ev; simp [process_common]
  | cons o rest ih =>
    intro uf ev
    simp only [process_common]
    rw [ih (common_pass_opt cond str usw sos o uf ev).1
        (common_pass_opt cond str usw sos o uf ev).2]
    rw [ih (common_pass_opt cond str usw sos o true []).1
        (common_pass_opt cond str usw sos o true []).2]
    rw [common_pass_opt_split cond str usw sos o uf ev]
    simp [Bool.and_assoc, List.append_assoc]

lemma snapshot_tail_split (cond : WStr → Bool) (str : WStr) (usw : Bool) (sos : WStr)
    (opts : List complete_entry_opt_t) (c F : Bool) (E : List param_event)
    (uf : Bool) (ev : List param_event) :
    (if c = true then process_common cond str usw sos opts (uf && F) (ev ++ E)
     else (uf && F, ev ++ E)) =
      ((uf && (if c = true then process_common cond str usw sos opts F E else (F, E)).1),
       ev ++ (if c = true then process_common cond str usw sos opts F E else (F, E)).2) := by
  cases c with
  | false => simp
  | true =>
    simp only [if_true]
    rw [process_common_split cond str usw sos opts (uf && F) (ev ++ E),
      process_common_split cond str usw sos opts F E]
    simp [Bool.and_assoc, List.append_assoc]

lemma process_snapshot_split (skip : complete_entry_opt_t → Bool) (cond : WStr → Bool)
    (popt str : WStr) (usw : Bool) (snap : local_options_t) (uf : Bool)
    (ev : List param_event) :
    process_snapshot skip cond popt str usw snap uf ev =
      ((uf && (process_snapshot skip cond popt str usw snap true []).1),
       ev ++ (process_snapshot skip cond popt str usw snap true []).2) := by
  unfold process_snapshot
  by_cases husw : usw = true
  · by_cases hstr : str.head? = some '-'
    · simp only [husw, hstr, if_true]
      rw [process_branchA_split cond str snap.options true uf ev,
        process_branchA_split cond str snap.options true true []]
      simp only [Bool.true_and, List.nil_append]
      exact snapshot_tail_split cond str true snap.short_opt_str snap.options
        (process_branchA cond str snap.options true true []).1
        (process_branchA cond str snap.options true true []).2.1
        (process_branchA cond str snap.options true true []).2.2 uf ev
    · by_cases hpopt : popt.head? = some '-'
      · simp only [husw, hstr, hpopt, if_true, if_false]
        rw [process_branchB_old_split cond popt str snap.options false true uf ev,
          process_branchB_old_split cond popt str snap.options false true true []]
        simp only [Bool.false_or, Bool.true_and, List.nil_append]
        cases hB1 : (process_branchB_old cond popt str snap.options false true true []).1 with
        | true =>
          simp only [hB1, Bool.not_true, Bool.false_eq_true, if_false]
          exact snapshot_tail_split cond str true snap.short_opt_str snap.options
            (process_branchB_old cond popt str snap.options false true true []).2.1
            (process_branchB_old cond popt str snap.options false true true []).2.2.1
            (process_branchB_old cond popt str snap.options false true true []).2.2.2 uf ev
        | false =>
          simp only [hB1, Bool.not_false, if_true]
          rw [process_branchB_rest_split skip cond popt str snap.options
              (process_branchB_old cond popt str snap.options false true true []).2.1
              (uf && (process_branchB_old cond popt str snap.options false true true []).2.2.1)
              (ev ++ (process_branchB_old cond popt str snap.options false true true []).2.2.2),
            process_branchB_rest_split skip cond popt str snap.options
              (process_branchB_old cond popt str snap.options false true true []).2.1
              (process_branchB_old cond popt str snap.options false true true []).2.2.1
              (process_branchB_old cond popt str snap.options false true true []).2.2.2]
          simp only [Bool.and_assoc, List.append_assoc]
          exact snapshot_tail_split cond str true snap.short_opt_str snap.options
            ((process_branchB_old cond popt str snap.options false true true []).2.1 &&
              (process_branchB_rest skip cond popt str snap.options true true []).1)
            ((process_branchB_old cond popt str snap.options false true true []).2.2.1 &&
              (process_branchB_rest skip cond popt str snap.options true true []).2.1)
            ((process_branchB_old cond popt str snap.options false true true []).2.2.2 ++
              (process_branchB_rest skip cond popt str snap.options true true []).2.2) uf ev
      · simp only [husw, hstr, hpopt, if_true, if_false]
        have := snapshot_tail_split cond str true snap.short_opt_str snap.options
          true true [] uf ev
        simpa using this
  · have husw2 := bool_eq_false_of_ne_true husw
    simp only [husw2, Bool.false_eq_true, if_false]
    have := snapshot_tail_split cond str false snap.short_opt_str snap.options
      true true [] uf ev
    simpa using this

lemma complete_param_foldl_split (skip : complete_entry_opt_t → Bool) (cond : WStr → Bool)
    (popt str : WStr) (usw : Bool) :
    ∀ (snaps : List local_options_t) (uf : Bool) (ev : List param_event),
      snaps.foldl
          (fun acc snap => process_snapshot skip cond popt str usw snap acc.1 acc.2)
          (uf, ev) =
        ((uf && (snaps.all (fun s => (process_snapshot skip cond popt str usw s true []).1))),
         ev ++ (snaps.map (fun s => (process_snapshot skip cond popt str usw s true []).2)).flatten) := by
  intro snaps
  induction snaps with
  | nil => intro uf ev; simp
  | cons s rest ih =>
    intro uf ev
    simp only [List.foldl_cons]
    rw [process_snapshot_split skip cond popt str usw s uf ev]
    rw [ih (uf && (process_snapshot skip cond popt str usw s true []).1)
        (ev ++ (process_snapshot skip cond popt str usw s true []).2)]
    simp [Bool.and_assoc, List.append_assoc]

/-- Counterexample for claim C3 as stated: with a first snapshot whose
positional option carries NO_FILES and a second empty snapshot, the code
(which initializes `use_files` once per invocation) returns false, while the
claim's reading (re-initializing `use_files` at the start of every snapshot's
iteration) returns true. -/
theorem claim_C3_counterexample :
    (complete_param_snaps (fun _ => true) [] [] false [c3_snap1, c3_snap2]).1 = false ∧
      (complete_param_snaps_claimC3 (fun _ => true) [] [] false [c3_snap1, c3_snap2]).1 =
        true := by
  constructor
  · rfl
  · rfl

/-- Claim C3 (amended): `use_common` is re-initialized to true at the start
of every snapshot's iteration, but `use_files` is initialized to true once
per invocation and carried across snapshots, so the matcher returns the
conjunction over all snapshots of each snapshot's locally computed file
verdict (and emits the per-snapshot events in order). -/
theorem claim_C3 (cond : WStr → Bool) (popt str : WStr) (usw : Bool)
    (snaps : List local_options_t) :
    complete_param_snaps cond popt str usw snaps =
      (snaps.all
        (fun s => (process_snapshot gnu_optional_skip cond popt str usw s true []).1),
       (snaps.map
         (fun s => (process_snapshot gnu_optional_skip cond popt str usw s true []).2)).flatten) := by
  unfold complete_param_snaps
  rw [complete_param_foldl_split gnu_optional_skip cond popt str usw snaps true []]
  simp

/-- Counterexample for claim C4 as stated: for the token `--` every schema
check is bypassed by the generic pre-checks, so with an authoritative
matching schema declaring no options the function returns true and appends
no error, where the claim demands false plus an `Unknown option: ` error. -/
theorem claim_C4_counterexample :
    c4_entry.authoritative = true ∧
      c4_entry.options = [] ∧
      (fun a b => a == b : WStr → WStr → Bool)
          (parse_cmd_string (fun _ => none) ['f', 'o', 'o']).2 c4_entry.cmd = true ∧
      complete_is_valid_option_m (fun a b => a == b) (fun _ => none) [c4_entry]
          ['f', 'o', 'o'] ['-', '-'] = (true, []) := by
  refine ⟨rfl, rfl, by decide, by rfl⟩

lemma ivo_gnu_scan_fields (opt : WStr) (gnu_len : Nat) :
    ∀ (options : List complete_entry_opt_t) (st : ivo_state),
      (ivo_gnu_scan opt gnu_len options st).authoritative = st.authoritative ∧
        (ivo_gnu_scan opt gnu_len options st).is_old_opt = st.is_old_opt ∧
        (ivo_gnu_scan opt gnu_len options st).found_match = st.found_match ∧
        (ivo_gnu_scan opt gnu_len options st).opt_found = st.opt_found ∧
        (ivo_gnu_scan opt gnu_len options st).short_validated = st.short_validated := by
  intro options
  induction options with
  | nil => intro st; exact ⟨rfl, rfl, rfl, rfl, rfl⟩
  | cons o rest ih =>
    intro st
    have step : ivo_gnu_scan opt gnu_len (o :: rest) st =
        ivo_gnu_scan opt gnu_len rest
          (if o.old_mode then st
           else if (opt.drop 2).take gnu_len = o.long_opt then
             (let st2 := { st with gnu_match_set := wset_insert st.gnu_match_set o.long_opt }
              if ¬ ((opt.drop 2).take o.long_opt.length = o.long_opt) then
                { st2 with is_gnu_exact := true }
              else st2)
           else st) := by
      simp only [ivo_gnu_scan, List.foldl_cons]
    rw [step]
    obtain ⟨i1, i2, i3, i4, i5⟩ := ih (if o.old_mode then st
      else if (opt.drop 2).take gnu_len = o.long_opt then
        (let st2 := { st with gnu_match_set := wset_insert st.gnu_match_set o.long_opt }
         if ¬ ((opt.drop 2).take o.long_opt.length = o.long_opt) then
           { st2 with is_gnu_exact := true }
         else st2)
      else st)
    refine ⟨?_, ?_, ?_, ?_, ?_⟩ <;>
      [rw [i1]; rw [i2]; rw [i3]; rw [i4]; rw [i5]] <;>
      split_ifs <;> rfl

lemma ivo_gnu_scan_clean (opt : WStr) (gnu_len : Nat) :
    ∀ (options : List complete_entry_opt_t) (st : ivo_state),
      (∀ o ∈ options, o.old_mode = true ∨ ¬ ((opt.drop 2).take gnu_len = o.long_opt)) →
      ivo_gnu_scan opt gnu_len options st = st := by
  intro options
  induction options with
  | nil => intro st _; rfl
  | cons o rest ih =>
    intro st h
    have ho := h o (List.mem_cons_self o rest)
    have step : ivo_gnu_scan opt gnu_len (o :: rest) st = ivo_gnu_scan opt gnu_len rest st := by
      simp only [ivo_gnu_scan, List.foldl_cons]
      cases ho with
      | inl hold => simp [hold]
      | inr hne =>
        by_cases hom : o.old_mode = true
        · simp [hom]
        · have hom2 := bool_eq_false_of_ne_true hom
          simp [hom2, hne]
    rw [step]
    exact ih st (fun o2 ho2 => h o2 (List.mem_cons_of_mem o ho2))

lemma find_with_next_none {c : Char} :
    ∀ {s : WStr}, c ∉ s → find_with_next s c = none := by
  intro s
  induction s with
  | nil => intro _; rfl
  | cons x rest ih =>
    intro h
    have hx : x ≠ c := fun he => h (he ▸ List.mem_cons_self x rest)
    have hr : c ∉ rest := fun hm => h (List.mem_cons_of_mem x hm)
    simp only [find_with_next, hx, if_false]
    exact ih hr

lemma ivo_short_scan_aux_clean (cmdline opt sos : WStr) :
    ∀ (chars : WStr) (idx : Nat) (sv : List Bool),
      (∀ c ∈ chars, c ∉ sos) →
      ivo_short_scan_aux cmdline opt sos idx chars sv = sv := by
  intro chars
  induction chars with
  | nil => intro idx sv _; rfl
  | cons c rest ih =>
    intro idx sv h
    have hc := h c (List.mem_cons_self c rest)
    simp only [ivo_short_scan_aux, find_with_next_none hc]
    exact ih (idx + 1) sv (fun c2 hc2 => h c2 (List.mem_cons_of_mem c hc2))

lemma ivo_old_scan_none {opt : WStr} {options : List complete_entry_opt_t} {st : ivo_state}
    (h : options.find? (fun o => o.old_mode && o.long_opt == opt.drop 1) = none) :
    ivo_old_scan opt options st = st := by
  unfold ivo_old_scan
  rw [h]

lemma ivo_loop_nonauth (wmatch : WStr → WStr → Bool) (cmdline path cmd opt : WStr)
    (is_gnu : Bool) (gnu_len : Nat) :
    ∀ (entries : List completion_entry_t) (st : ivo_state),
      st.authoritative = true → st.is_old_opt = false →
      (∃ e ∈ entries,
        wmatch (if e.cmd_is_path then path else cmd) e.cmd = true ∧
          e.authoritative = false) →
      ((ivo_loop wmatch cmdline path cmd opt is_gnu gnu_len entries st).authoritative =
          false ∨
        (is_gnu = false ∧
          (ivo_loop wmatch cmdline path cmd opt is_gnu gnu_len entries st).is_old_opt = true ∧
          (ivo_loop wmatch cmdline path cmd opt is_gnu gnu_len entries st).opt_found = true ∧
          (ivo_loop wmatch cmdline path cmd opt is_gnu gnu_len entries st).found_match =
            true)) := by
  intro entries
  induction entries with
  | nil =>
    intro st _ _ hex
    obtain ⟨e, he, _⟩ := hex
    exact absurd he (List.not_mem_nil e)
  | cons e0 rest ih =>
    intro st hauth hold hex
    by_cases hm : wmatch (if e0.cmd_is_path then path else cmd) e0.cmd = true
    · by_cases ha : e0.authoritative = true
      · have hex2 : ∃ e ∈ rest,
            wmatch (if e.cmd_is_path then path else cmd) e.cmd = true ∧
              e.authoritative = false := by
          obtain ⟨e, he, hw, hna⟩ := hex
          cases List.mem_cons.mp he with
          | inl heq =>
            subst heq
            rw [ha] at hna
            cases hna
          | inr hmem => exact ⟨e, hmem, hw, hna⟩
        by_cases hg : is_gnu = true
        · have step : ivo_loop wmatch cmdline path cmd opt is_gnu gnu_len (e0 :: rest) st =
              ivo_loop wmatch cmdline path cmd opt is_gnu gnu_len rest
                (ivo_gnu_scan opt gnu_len e0.options { st with found_match := true }) := by
            simp only [ivo_loop, hm, ha, hg]
            simp
          rw [step]
          obtain ⟨f1, f2, _⟩ :=
            ivo_gnu_scan_fields opt gnu_len e0.options { st with found_match := true }
          exact ih _ (by rw [f1]; exact hauth) (by rw [f2]; exact hold) hex2
        · have hg2 := bool_eq_false_of_ne_true hg
          cases hfind :
              e0.options.find? (fun o => o.old_mode && o.long_opt == opt.drop 1) with
          | some x =>
            have step : ivo_loop wmatch cmdline path cmd opt is_gnu gnu_len (e0 :: rest) st =
                { st with found_match := true, opt_found := true, is_old_opt := true } := by
              simp only [ivo_loop, hm, ha, hg2]
              simp only [ivo_old_scan, hfind]
              simp
            rw [step]
            exact Or.inr ⟨hg2, rfl, rfl, rfl⟩
          | none =>
            have step : ivo_loop wmatch cmdline path cmd opt is_gnu gnu_len (e0 :: rest) st =
                ivo_loop wmatch cmdline path cmd opt is_gnu gnu_len rest ({ st with found_match := true, short_validated := ivo_short_scan cmdline opt e0.short_opt_str st.short_validated }) := by
              simp only [ivo_loop, hm, ha, hg2]
              simp only [ivo_old_scan, hfind]
              simp [hold]
            rw [step]
            exact ih _ hauth hold hex2
      · have ha2 := bool_eq_false_of_ne_true ha
        have step : ivo_loop wmatch cmdline path cmd opt is_gnu gnu_len (e0 :: rest) st =
            { st with found_match := true, authoritative := false } := by
          simp only [ivo_loop, hm, ha2]
          simp
        rw [step]
        exact Or.inl rfl
    · have hm2 := bool_eq_false_of_ne_true hm
      have hex2 : ∃ e ∈ rest,
          wmatch (if e.cmd_is_path then path else cmd) e.cmd = true ∧
            e.authoritative = false := by
        obtain ⟨e, he, hw, hna⟩ := hex
        cases List.mem_cons.mp he with
        | inl heq =>
          subst heq
          rw [hm2] at hw
          cases hw
        | inr hmem => exact ⟨e, hmem, hw, hna⟩
      have step : ivo_loop wmatch cmdline path cmd opt is_gnu gnu_len (e0 :: rest) st =
          ivo_loop wmatch cmdline path cmd opt is_gnu gnu_len rest st := by
        simp only [ivo_loop, hm2]
        simp
      rw [step]
      exact ih st hauth hold hex2

lemma ivo_loop_clean_gnu (wmatch : WStr → WStr → Bool) (cmdline path cmd opt : WStr)
    (gnu_len : Nat) :
    ∀ (entries : List completion_entry_t) (st : ivo_state),
      (∀ e ∈ entries, wmatch (if e.cmd_is_path then path else cmd) e.cmd = true →
        e.authoritative = true ∧
          ∀ o ∈ e.options, o.old_mode = true ∨ ¬ ((opt.drop 2).take gnu_len = o.long_opt)) →
      ivo_loop wmatch cmdline path cmd opt true gnu_len entries st =
        { st with found_match :=
            (st.found_match ||
              entries.any (fun e => wmatch (if e.cmd_is_path then path else cmd) e.cmd)) } := by
  intro entries
  induction entries with
  | nil =>
    intro st _
    simp [ivo_loop]
  | cons e0 rest ih =>
    intro st h
    by_cases hm : wmatch (if e0.cmd_is_path then path else cmd) e0.cmd = true
    · obtain ⟨ha, hopts⟩ := h e0 (List.mem_cons_self e0 rest) hm
      have step : ivo_loop wmatch cmdline path cmd opt true gnu_len (e0 :: rest) st =
          ivo_loop wmatch cmdline path cmd opt true gnu_len rest
            (ivo_gnu_scan opt gnu_len e0.options { st with found_match := true }) := by
        simp only [ivo_loop, hm, ha]
        simp
      rw [step, ivo_gnu_scan_clean opt gnu_len e0.options _ hopts]
      rw [ih _ (fun e he hw => h e (List.mem_cons_of_mem e0 he) hw)]
      simp [hm]
    · have hm2 := bool_eq_false_of_ne_true hm
      have step : ivo_loop wmatch cmdline path cmd opt true gnu_len (e0 :: rest) st =
          ivo_loop wmatch cmdline path cmd opt true gnu_len rest st := by
        simp only [ivo_loop, hm2]
        simp
      rw [step, ih st (fun e he hw => h e (List.mem_cons_of_mem e0 he) hw)]
      simp [hm2]

lemma ivo_loop_clean_short (wmatch : WStr → WStr → Bool) (cmdline path cmd opt : WStr)
    (gnu_len : Nat) :
    ∀ (entries : List completion_entry_t) (st : ivo_state),
      st.is_old_opt = false →
      (∀ e ∈ entries, wmatch (if e.cmd_is_path then path else cmd) e.cmd = true →
        e.authoritative = true ∧
          e.options.find? (fun o => o.old_mode && o.long_opt == opt.drop 1) = none ∧
          (∀ c ∈ opt.drop 1, c ∉ e.short_opt_str)) →
      ivo_loop wmatch cmdline path cmd opt false gnu_len entries st =
        { st with found_match :=
            (st.found_match ||
              entries.any (fun e => wmatch (if e.cmd_is_path then path else cmd) e.cmd)) } := by
  intro entries
  induction entries with
  | nil =>
    intro st _ _
    simp [ivo_loop]
  | cons e0 rest ih =>
    intro st hold h
    by_cases hm : wmatch (if e0.cmd_is_path then path else cmd) e0.cmd = true
    · obtain ⟨ha, hfind, hchars⟩ := h e0 (List.mem_cons_self e0 rest) hm
      have hscan : ivo_short_scan cmdline opt e0.short_opt_str st.short_validated =
          st.short_validated := by
        unfold ivo_short_scan
        exact ivo_short_scan_aux_clean cmdline opt e0.short_opt_str (opt.drop 1) 1
          st.short_validated hchars
      have step : ivo_loop wmatch cmdline path cmd opt false gnu_len (e0 :: rest) st =
          ivo_loop wmatch cmdline path cmd opt false gnu_len rest
            ({ st with found_match := true }) := by
        simp only [ivo_loop, hm, ha]
        simp only [ivo_old_scan, hfind]
        simp [hold, hscan]
      rw [step]
      rw [ih ({ st with found_match := true }) hold
        (fun e he hw => h e (List.mem_cons_of_mem e0 he) hw)]
      simp [hm]
    · have hm2 := bool_eq_false_of_ne_true hm
      have step : ivo_loop wmatch cmdline path cmd opt false gnu_len (e0 :: rest) st =
          ivo_loop wmatch cmdline path cmd opt false gnu_len rest st := by
        simp only [ivo_loop, hm2]
        simp
      rw [step, ih st hold (fun e he hw => h e (List.mem_cons_of_mem e0 he) hw)]
      simp [hm2]

lemma first_false_replicate {n : Nat} (h : 2 ≤ n) :
    first_false_from1 (List.replicate n false) = some 1 := by
  obtain ⟨m, rfl⟩ : ∃ m, n = m + 2 := ⟨n - 2, by omega⟩
  simp [List.replicate_succ, first_false_from1, first_false_aux]

lemma civo_main_eq (wmatch : WStr → WStr → Bool) (get_path : WStr → Option WStr)
    (entries : List completion_entry_t) (cmdline opt : WStr)
    (h0 : ¬ (opt = [])) (h1 : ¬ (opt.length = 1)) (h2 : ¬ (opt = ['-', '-']))
    (h3 : ¬ (opt.head? ≠ some '-')) :
    complete_is_valid_option_m wmatch get_path entries cmdline opt =
      ((if (civo_loop_result wmatch get_path entries cmdline opt).authoritative &&
            (civo_loop_result wmatch get_path entries cmdline opt).found_match
          then (ivo_validate opt (decide (opt[1]? = some '-'))
            (civo_loop_result wmatch get_path entries cmdline opt)).1
          else true),
       (ivo_validate opt (decide (opt[1]? = some '-'))
         (civo_loop_result wmatch get_path entries cmdline opt)).2) := by
  unfold complete_is_valid_option_m
  rw [if_neg h0, if_neg h1, if_neg h2, if_neg h3]
  rfl

/-- Claim C4 (amended, restricted to well-formed option tokens: at least two
characters, a leading dash, and not the bare `--`, which the generic
pre-checks accept before any schema is consulted): if some matching schema is
non-authoritative, `complete_is_valid_option` returns true; if at least one
schema matches, every matching schema is authoritative and none declares the
given option, it returns false and appends an error beginning with
`Unknown option: `. -/
theorem claim_C4 (wmatch : WStr → WStr → Bool) (get_path : WStr → Option WStr)
    (entries : List completion_entry_t) (cmdline opt : WStr)
    (hlen : 2 ≤ opt.length) (hd : opt.head? = some '-') (hne : opt ≠ ['-', '-']) :
    ((∃ e ∈ entries,
        wmatch (if e.cmd_is_path then (parse_cmd_string get_path cmdline).1
            else (parse_cmd_string get_path cmdline).2) e.cmd = true ∧
          e.authoritative = false) →
        (complete_is_valid_option_m wmatch get_path entries cmdline opt).1 = true) ∧
      ((∃ e ∈ entries,
          wmatch (if e.cmd_is_path then (parse_cmd_string get_path cmdline).1
              else (parse_cmd_string get_path cmdline).2) e.cmd = true) →
        (∀ e ∈ entries,
          wmatch (if e.cmd_is_path then (parse_cmd_string get_path cmdline).1
              else (parse_cmd_string get_path cmdline).2) e.cmd = true →
            e.authoritative = true) →
        (∀ e ∈ entries,
          wmatch (if e.cmd_is_path then (parse_cmd_string get_path cmdline).1
              else (parse_cmd_string get_path cmdline).2) e.cmd = true →
            ¬ entry_declares e opt) →
        (complete_is_valid_option_m wmatch get_path entries cmdline opt).1 = false ∧
          ∃ err ∈ (complete_is_valid_option_m wmatch get_path entries cmdline opt).2,
            unknown_option_msg <+: err) := by
  have h0 : ¬ (opt = []) := by
    intro hh
    rw [hh] at hlen
    exact absurd hlen (by decide)
  have h1 : ¬ (opt.length = 1) := by omega
  have h3 : ¬ (opt.head? ≠ some '-') := fun hh => hh hd
  have hmain := civo_main_eq wmatch get_path entries cmdline opt h0 h1 hne h3
  constructor
  · intro hex
    rw [hmain]
    have hna := ivo_loop_nonauth wmatch cmdline (parse_cmd_string get_path cmdline).1
      (parse_cmd_string get_path cmdline).2 opt (decide (opt[1]? = some '-'))
      (if opt[1]? = some '-' then gnu_len_of opt else 0) entries (ivo_init opt) rfl rfl hex
    cases hna with
    | inl hf =>
      show (if (civo_loop_result wmatch get_path entries cmdline opt).authoritative &&
            (civo_loop_result wmatch get_path entries cmdline opt).found_match
          then _ else true) = true
      have hf2 : (civo_loop_result wmatch get_path entries cmdline opt).authoritative =
          false := hf
      simp [hf2]
    | inr hr =>
      obtain ⟨hg, holdt, hopt, hfound⟩ := hr
      have holdt2 : (civo_loop_result wmatch get_path entries cmdline opt).is_old_opt =
          true := holdt
      have hopt2 : (civo_loop_result wmatch get_path entries cmdline opt).opt_found =
          true := hopt
      have hfound2 : (civo_loop_result wmatch get_path entries cmdline opt).found_match =
          true := hfound
      by_cases hauth :
          (civo_loop_result wmatch get_path entries cmdline opt).authoritative = true
      · show (if (civo_loop_result wmatch get_path entries cmdline opt).authoritative &&
              (civo_loop_result wmatch get_path entries cmdline opt).found_match
            then (ivo_validate opt (decide (opt[1]? = some '-'))
              (civo_loop_result wmatch get_path entries cmdline opt)).1 else true) = true
        rw [hauth, hfound2]
        simp only [Bool.and_self, if_true]
        unfold ivo_validate
        rw [hg]
        simp [hauth, holdt2, hopt2]
      · have hf2 := bool_eq_false_of_ne_true hauth
        show (if (civo_loop_result wmatch get_path entries cmdline opt).authoritative &&
              (civo_loop_result wmatch get_path entries cmdline opt).found_match
            then _ else true) = true
        simp [hf2]
  · intro hexm hall hnd
    rw [hmain]
    have hany : entries.any
        (fun e => wmatch (if e.cmd_is_path then (parse_cmd_string get_path cmdline).1
          else (parse_cmd_string get_path cmdline).2) e.cmd) = true := by
      obtain ⟨e, he, hw⟩ := hexm
      exact List.any_eq_true.mpr ⟨e, he, hw⟩
    by_cases hgnu : opt[1]? = some '-'
    · have hig : (decide (opt[1]? = some '-')) = true := decide_eq_true hgnu
      have hR : civo_loop_result wmatch get_path entries cmdline opt =
          { ivo_init opt with found_match := true } := by
        unfold civo_loop_result
        rw [hig, if_pos hgnu]
        rw [ivo_loop_clean_gnu wmatch cmdline (parse_cmd_string get_path cmdline).1
          (parse_cmd_string get_path cmdline).2 opt (gnu_len_of opt) entries (ivo_init opt)]
        · simp [ivo_init, hany]
        · intro e he hw
          refine ⟨hall e he hw, ?_⟩
          intro o ho
          by_cases hom : o.old_mode = true
          · exact Or.inl hom
          · refine Or.inr ?_
            intro heq
            apply hnd e he hw
            unfold entry_declares
            rw [if_pos hgnu]
            exact ⟨o, ho, bool_eq_false_of_ne_true hom, heq.symm⟩
      have hval : ivo_validate opt (decide (opt[1]? = some '-'))
          (civo_loop_result wmatch get_path entries cmdline opt) =
          (false, [format_error unknown_option_msg opt]) := by
        rw [hig, hR]
        unfold ivo_validate
        simp [ivo_init]
      refine ⟨?_, ?_⟩
      · show (if (civo_loop_result wmatch get_path entries cmdline opt).authoritative &&
            (civo_loop_result wmatch get_path entries cmdline opt).found_match
          then (ivo_validate opt (decide (opt[1]? = some '-'))
            (civo_loop_result wmatch get_path entries cmdline opt)).1 else true) = false
        rw [hval, hR]
        simp [ivo_init]
      · show ∃ err ∈ (ivo_validate opt (decide (opt[1]? = some '-'))
            (civo_loop_result wmatch get_path entries cmdline opt)).2,
          unknown_option_msg <+: err
        rw [hval]
        refine ⟨format_error unknown_option_msg opt, List.mem_singleton_self _, ?_⟩
        exact ⟨quoteChar :: (opt ++ [quoteChar]), rfl⟩
    · have hig : (decide (opt[1]? = some '-')) = false := decide_eq_false hgnu
      have hR : civo_loop_result wmatch get_path entries cmdline opt =
          { ivo_init opt with found_match := true } := by
        unfold civo_loop_result
        rw [hig, if_neg hgnu]
        rw [ivo_loop_clean_short wmatch cmdline (parse_cmd_string get_path cmdline).1
          (parse_cmd_string get_path cmdline).2 opt 0 entries (ivo_init opt) rfl]
        · simp [ivo_init, hany]
        · intro e he hw
          have hnde := hnd e he hw
          unfold entry_declares at hnde
          rw [if_neg hgnu] at hnde
          push_neg at hnde
          obtain ⟨hnold, hnshort⟩ := hnde
          refine ⟨hall e he hw, ?_, ?_⟩
          · apply List.find?_eq_none.mpr
            intro o ho hb
            have hb2 := (Bool.and_eq_true _ _).mp hb
            exact absurd (hnold o ho hb2.1) (by simpa using hb2.2)
          · intro c hc hcs
            exact absurd hcs (hnshort c hc)
      have hval : ivo_validate opt (decide (opt[1]? = some '-'))
          (civo_loop_result wmatch get_path entries cmdline opt) =
          (false, [format_error unknown_option_msg ((opt.drop 1).take 1)]) := by
        rw [hig, hR]
        unfold ivo_validate
        simp only [ivo_init]
        simp [first_false_replicate hlen]
      refine ⟨?_, ?_⟩
      · show (if (civo_loop_result wmatch get_path entries cmdline opt).authoritative &&
            (civo_loop_result wmatch get_path entries cmdline opt).found_match
          then (ivo_validate opt (decide (opt[1]? = some '-'))
            (civo_loop_result wmatch get_path entries cmdline opt)).1 else true) = false
        rw [hval, hR]
        simp [ivo_init]
      · show ∃ err ∈ (ivo_validate opt (decide (opt[1]? = some '-'))
            (civo_loop_result wmatch get_path entries cmdline opt)).2,
          unknown_option_msg <+: err
        rw [hval]
        refine ⟨format_error unknown_option_msg ((opt.drop 1).take 1),
          List.mem_singleton_self _, ?_⟩
        exact ⟨quoteChar :: ((opt.drop 1).take 1 ++ [quoteChar]), rfl⟩

/-- Witness for claim C4: an authoritative schema for `foo` with no options
rejects `-x` with an `Unknown option: ` error. -/
theorem claim_C4_witness :
    (complete_is_valid_option_m (fun a b => a == b) (fun _ => none) [c4_entry]
        ['f', 'o', 'o'] ['-', 'x']).1 = false ∧
      ∃ err ∈ (complete_is_valid_option_m (fun a b => a == b) (fun _ => none) [c4_entry]
          ['f', 'o', 'o'] ['-', 'x']).2,
        unknown_option_msg <+: err := by
  have h := claim_C4 (fun a b => a == b) (fun _ => none) [c4_entry] ['f', 'o', 'o']
    ['-', 'x'] (by decide) (by decide) (by decide)
  refine h.2 (by decide) (by decide) ?_
  intro e he hw
  have he2 : e = c4_entry := List.mem_singleton.mp he
  subst he2
  intro hdecl
  unfold entry_declares at hdecl
  rw [if_neg (by decide)] at hdecl
  simp [c4_entry] at hdecl

/-- Counterexample for claim C8 as stated: two options sharing the short
letter x (the older one argument-taking), then removal of the newer one by
its long option, leaves `short_opt_str` as `x` while the derived view of the
remaining options is `x:` — the splice removed the wrong occurrence. -/
theorem claim_C8_counterexample :
    ∃ e, complete_find_entry (apply_ops c8_ops empty_store).entries ['c'] false = some e ∧
      e.short_opt_str = ['x'] ∧
      derived_short_str e.options = ['x', ':'] ∧
      e.short_opt_str ≠ derived_short_str e.options := by
  refine ⟨_, rfl, rfl, rfl, by decide⟩

lemma derived_cons (o : complete_entry_opt_t) (opts : List complete_entry_opt_t) :
    derived_short_str (o :: opts) = derived_short_str opts ++ short_block o := by
  unfold derived_short_str
  simp

lemma short_letters_cons (o : complete_entry_opt_t) (opts : List complete_entry_opt_t) :
    short_letters (o :: opts) =
      (if o.short_opt = nulChar then short_letters opts
       else o.short_opt :: short_letters opts) := by
  unfold short_letters
  by_cases h : o.short_opt = nulChar <;> simp [h]

lemma short_block_of_nul {o : complete_entry_opt_t} (h : o.short_opt = nulChar) :
    short_block o = [] := by
  unfold short_block
  rw [if_pos h]

lemma mem_short_block {c : Char} {o : complete_entry_opt_t} (h : c ∈ short_block o) :
    (o.short_opt ≠ nulChar ∧ c = o.short_opt) ∨ c = ':' := by
  unfold short_block at h
  by_cases hn : o.short_opt = nulChar
  · rw [if_pos hn] at h
    cases h
  · rw [if_neg hn] at h
    cases h with
    | head => exact Or.inl ⟨hn, rfl⟩
    | tail _ hm =>
      by_cases hcolon : o.result_mode &&& NO_COMMON ≠ 0
      · rw [if_pos hcolon] at hm
        cases hm with
        | head => exact Or.inr rfl
        | tail _ hmm => cases hmm
      · rw [if_neg hcolon] at hm
        cases hm

lemma not_mem_derived {c : Char} :
    ∀ {opts : List complete_entry_opt_t},
      c ∉ short_letters opts → c ≠ ':' → c ∉ derived_short_str opts := by
  intro opts
  induction opts with
  | nil => intro _ _ h; cases h
  | cons o rest ih =>
    intro hlet hcol hmem
    rw [derived_cons] at hmem
    rw [short_letters_cons] at hlet
    have hlet_rest : c ∉ short_letters rest := by
      intro hx
      apply hlet
      split_ifs
      · exact hx
      · exact List.mem_cons_of_mem _ hx
    cases List.mem_append.mp hmem with
    | inl hm => exact ih hlet_rest hcol hm
    | inr hm =>
      cases mem_short_block hm with
      | inl he =>
        obtain ⟨hn, he2⟩ := he
        subst he2
        apply hlet
        rw [if_neg hn]
        exact List.mem_cons_self _ _
      | inr he => exact hcol he

lemma erase_colon_run_id {l : WStr} (h : l.head? ≠ some ':') : erase_colon_run l = l := by
  cases l with
  | nil => rfl
  | cons x rest =>
    have hx : x ≠ ':' := by
      intro hh
      exact h (by rw [hh]; rfl)
    simp [erase_colon_run, hx]

lemma erase_short_letter_append {c : Char} :
    ∀ {xs : WStr} (ys : WStr), c ∉ xs →
      erase_short_letter (xs ++ ys) c = xs ++ erase_short_letter ys c := by
  intro xs
  induction xs with
  | nil => intro ys _; rfl
  | cons x rest ih =>
    intro ys h
    have hx : x ≠ c := fun he => h (he ▸ List.mem_cons_self x rest)
    have hr : c ∉ rest := fun hm => h (List.mem_cons_of_mem x hm)
    simp only [List.cons_append, erase_short_letter, hx, if_false, List.append_eq]
    rw [ih ys hr]

lemma erase_short_letter_cons_self (c : Char) (rest : WStr) :
    erase_short_letter (c :: rest) c = erase_colon_run rest := by
  simp [erase_short_letter]

lemma erase_colon_run_cons_colon (rest : WStr) :
    erase_colon_run (':' :: rest) = erase_colon_run rest := by
  simp [erase_colon_run]

lemma erase_short_block {o : complete_entry_opt_t} (tail : WStr)
    (hn : o.short_opt ≠ nulChar) (ht : tail.head? ≠ some ':') :
    erase_short_letter (short_block o ++ tail) o.short_opt = tail := by
  unfold short_block
  rw [if_neg hn]
  by_cases hcolon : o.result_mode &&& NO_COMMON ≠ 0
  · rw [if_pos hcolon]
    simp only [List.cons_append, List.nil_append]
    rw [erase_short_letter_cons_self, erase_colon_run_cons_colon, erase_colon_run_id ht]
  · rw [if_neg hcolon]
    simp only [List.cons_append, List.nil_append]
    rw [erase_short_letter_cons_self, erase_colon_run_id ht]

lemma remove_matching_shorts (short : Char) (long : Option WStr) :
    ∀ (opts : List complete_entry_opt_t) (tail : WStr),
      (short_letters opts).Nodup → ':' ∉ short_letters opts →
      (∀ c ∈ short_letters opts, c ∉ tail) → tail.head? ≠ some ':' →
      remove_matching_options short long opts (derived_short_str opts ++ tail) =
        (opts.filter (fun o => !removal_match short long o),
         derived_short_str (opts.filter (fun o => !removal_match short long o)) ++ tail) := by
  intro opts
  induction opts with
  | nil =>
    intro tail _ _ _ _
    simp [remove_matching_options, derived_short_str]
  | cons o rest tail_ih =>
    intro tail hnd hcol htail hhead
    rw [short_letters_cons] at hnd hcol htail
    have hrest_nd : (short_letters rest).Nodup := by
      by_cases hn : o.short_opt = nulChar
      · rw [if_pos hn] at hnd
        exact hnd
      · rw [if_neg hn] at hnd
        exact (List.nodup_cons.mp hnd).2
    have hrest_col : ':' ∉ short_letters rest := by
      intro hx
      apply hcol
      split_ifs
      · exact hx
      · exact List.mem_cons_of_mem _ hx
    have hshort_ne_colon : o.short_opt ≠ nulChar → o.short_opt ≠ ':' := by
      intro hn he
      apply hcol
      rw [if_neg hn, he]
      exact List.mem_cons_self _ _
    have hrest_tail : ∀ c ∈ short_letters rest, c ∉ tail := by
      intro c hc
      apply htail c
      split_ifs
      · exact hc
      · exact List.mem_cons_of_mem _ hc
    rw [derived_cons, List.append_assoc]
    by_cases hp : removal_match short long o = true
    · have hfil : (o :: rest).filter (fun o2 => !removal_match short long o2) =
          rest.filter (fun o2 => !removal_match short long o2) := by
        simp [List.filter_cons, hp]
      rw [hfil]
      by_cases hn : o.short_opt = nulChar
      · have step : remove_matching_options short long (o :: rest)
            (derived_short_str rest ++ (short_block o ++ tail)) =
            remove_matching_options short long rest (derived_short_str rest ++ tail) := by
          simp only [remove_matching_options, hp, if_true]
          rw [if_neg (by intro hh; exact hh hn)]
          rw [short_block_of_nul hn, List.nil_append]
        rw [step]
        exact tail_ih tail hrest_nd hrest_col hrest_tail hhead
      · have hnotin : o.short_opt ∉ derived_short_str rest := by
          apply not_mem_derived
          · rw [if_neg hn] at hnd
            exact (List.nodup_cons.mp hnd).1
          · exact hshort_ne_colon hn
        have step : remove_matching_options short long (o :: rest)
            (derived_short_str rest ++ (short_block o ++ tail)) =
            remove_matching_options short long rest (derived_short_str rest ++ tail) := by
          simp only [remove_matching_options, hp, if_true]
          rw [if_pos hn]
          rw [erase_short_letter_append (short_block o ++ tail) hnotin]
          rw [erase_short_block tail hn hhead]
        rw [step]
        exact tail_ih tail hrest_nd hrest_col hrest_tail hhead
    · have hp2 := bool_eq_false_of_ne_true hp
      have hfil : (o :: rest).filter (fun o2 => !removal_match short long o2) =
          o :: rest.filter (fun o2 => !removal_match short long o2) := by
        simp [List.filter_cons, hp2]
      have htail2 : ∀ c ∈ short_letters rest, c ∉ short_block o ++ tail := by
        intro c hc hmem
        cases List.mem_append.mp hmem with
        | inl hb =>
          cases mem_short_block hb with
          | inl hbs =>
            obtain ⟨hbn, hbe⟩ := hbs
            rw [if_neg hbn] at hnd
            rw [hbe] at hc
            exact (List.nodup_cons.mp hnd).1 hc
          | inr hbc =>
            rw [hbc] at hc
            exact hrest_col hc
        | inr ht => exact hrest_tail c hc ht
      have hhead2 : (short_block o ++ tail).head? ≠ some ':' := by
        by_cases hn : o.short_opt = nulChar
        · rw [short_block_of_nul hn, List.nil_append]
          exact hhead
        · unfold short_block
          rw [if_neg hn]
          simp only [List.cons_append, List.head?_cons]
          intro hh
          exact hshort_ne_colon hn (Option.some.inj hh)
      have step : remove_matching_options short long (o :: rest)
          (derived_short_str rest ++ (short_block o ++ tail)) =
          (o :: (remove_matching_options short long rest
              (derived_short_str rest ++ (short_block o ++ tail))).1,
           (remove_matching_options short long rest
              (derived_short_str rest ++ (short_block o ++ tail))).2) := by
        simp only [remove_matching_options, hp2, Bool.false_eq_true, if_false]
      rw [step]
      rw [tail_ih (short_block o ++ tail) hrest_nd hrest_col htail2 hhead2]
      rw [hfil, derived_cons, List.append_assoc]

lemma short_letters_filter_sublist (g : complete_entry_opt_t → Bool)
    (opts : List complete_entry_opt_t) :
    (short_letters (opts.filter g)).Sublist (short_letters opts) := by
  unfold short_letters
  exact (opts.filter_sublist).filterMap _

lemma insert_entry_mem {x e : completion_entry_t} {l : List completion_entry_t} :
    x ∈ insert_entry e l ↔ x = e ∨ x ∈ l := by
  rw [(insert_entry_perm e l).mem_iff]
  exact List.mem_cons

lemma update_first_forall {P : completion_entry_t → Prop} (cmd : WStr) (p : Bool)
    (f : completion_entry_t → completion_entry_t) :
    ∀ l, (∀ x ∈ l, P x) →
      (∀ x ∈ l, key_match x cmd p = true → P x → P (f x)) →
      ∀ x ∈ update_first cmd p f l, P x := by
  intro l
  induction l with
  | nil =>
    intro _ _ x hx
    cases hx
  | cons e0 rest ih =>
    intro hall hstep x hx
    by_cases hk : key_match e0 cmd p = true
    · rw [update_first, if_pos hk] at hx
      cases List.mem_cons.mp hx with
      | inl he =>
        rw [he]
        exact hstep e0 (List.mem_cons_self _ _) hk (hall e0 (List.mem_cons_self _ _))
      | inr hm => exact hall x (List.mem_cons_of_mem _ hm)
    · rw [update_first, if_neg hk] at hx
      cases List.mem_cons.mp hx with
      | inl he =>
        rw [he]
        exact hall e0 (List.mem_cons_self _ _)
      | inr hm =>
        exact ih (fun y hy => hall y (List.mem_cons_of_mem _ hy))
          (fun y hy => hstep y (List.mem_cons_of_mem _ hy)) x hm

lemma remove_in_entries_forall {P : completion_entry_t → Prop} (cmd : WStr) (p : Bool)
    (short : Char) (long : Option WStr) :
    ∀ l, (∀ x ∈ l, P x) →
      (∀ x ∈ l, key_match x cmd p = true → P x →
        (remove_option_entry x short long).2 = false →
        P (remove_option_entry x short long).1) →
      ∀ x ∈ remove_in_entries cmd p short long l, P x := by
  intro l
  induction l with
  | nil =>
    intro _ _ x hx
    cases hx
  | cons e0 rest ih =>
    intro hall hstep x hx
    by_cases hk : key_match e0 cmd p = true
    · rw [remove_in_entries, if_pos hk] at hx
      by_cases hre : (remove_option_entry e0 short long).2 = true
      · rw [if_pos hre] at hx
        exact hall x (List.mem_cons_of_mem _ hx)
      · rw [if_neg hre] at hx
        cases List.mem_cons.mp hx with
        | inl he =>
          rw [he]
          exact hstep e0 (List.mem_cons_self _ _) hk (hall e0 (List.mem_cons_self _ _))
            (Bool.eq_false_iff.mpr hre)
        | inr hm => exact hall x (List.mem_cons_of_mem _ hm)
    · rw [remove_in_entries, if_neg hk] at hx
      cases List.mem_cons.mp hx with
      | inl he =>
        rw [he]
        exact hall e0 (List.mem_cons_self _ _)
      | inr hm =>
        exact ih (fun y hy => hall y (List.mem_cons_of_mem _ hy))
          (fun y hy => hstep y (List.mem_cons_of_mem _ hy)) x hm

lemma entry_add_option_inv (short : Char) (mode : Nat) (long : Option WStr)
    (old : Bool) (cond comp desc : Option WStr) (flags : complete_flags_t)
    (e : completion_entry_t) (hc : entry_coherent e) (hs : entry_shorts_ok e)
    (hok : short = nulChar ∨ (short ≠ ':' ∧ short ∉ short_letters e.options)) :
    entry_coherent
        (entry_add_option short mode
          (add_option_fields short long old mode cond comp desc flags) e) ∧
      entry_shorts_ok
        (entry_add_option short mode
          (add_option_fields short long old mode cond comp desc flags) e) := by
  have hopt_short : (add_option_fields short long old mode cond comp desc flags).short_opt =
      short := rfl
  have hopt_mode : (add_option_fields short long old mode cond comp desc flags).result_mode =
      mode := rfl
  unfold entry_add_option
  by_cases hn : short ≠ nulChar
  · rw [if_pos hn]
    constructor
    · show e.short_opt_str ++ short :: (if mode &&& NO_COMMON ≠ 0 then [':'] else []) =
        derived_short_str (add_option_fields short long old mode cond comp desc flags :: e.options)
      rw [derived_cons, hc]
      congr 1
      unfold short_block
      rw [hopt_short, hopt_mode, if_neg (fun hh => hn hh)]
    · cases hok with
      | inl habs => exact absurd habs hn
      | inr hfresh =>
        constructor
        · show (short_letters (add_option_fields short long old mode cond comp desc flags ::
            e.options)).Nodup
          rw [short_letters_cons, hopt_short, if_neg (fun hh => hn hh)]
          exact List.nodup_cons.mpr ⟨hfresh.2, hs.1⟩
        · show ':' ∉ short_letters (add_option_fields short long old mode cond comp desc flags ::
            e.options)
          rw [short_letters_cons, hopt_short, if_neg (fun hh => hn hh)]
          intro hmem
          cases List.mem_cons.mp hmem with
          | inl he2 => exact hfresh.1 he2.symm
          | inr hm => exact hs.2 hm
  · have hn2 : short = nulChar := by
      by_cases hh : short = nulChar
      · exact hh
      · exact absurd hh hn
    rw [if_neg hn]
    constructor
    · show e.short_opt_str = derived_short_str
        (add_option_fields short long old mode cond comp desc flags :: e.options)
      rw [derived_cons, hc]
      have : short_block (add_option_fields short long old mode cond comp desc flags) = [] :=
        short_block_of_nul (by rw [hopt_short]; exact hn2)
      rw [this, List.append_nil]
    · constructor
      · show (short_letters (add_option_fields short long old mode cond comp desc flags ::
          e.options)).Nodup
        rw [short_letters_cons, hopt_short, if_pos hn2]
        exact hs.1
      · show ':' ∉ short_letters (add_option_fields short long old mode cond comp desc flags ::
          e.options)
        rw [short_letters_cons, hopt_short, if_pos hn2]
        exact hs.2

lemma remove_option_entry_inv (e : completion_entry_t) (short : Char) (long : Option WStr)
    (hc : entry_coherent e) (hs : entry_shorts_ok e)
    (hnb : ¬ (short = nulChar ∧ long = none)) :
    entry_coherent (remove_option_entry e short long).1 ∧
      entry_shorts_ok (remove_option_entry e short long).1 := by
  unfold remove_option_entry
  rw [if_neg hnb]
  have hsos : e.short_opt_str = derived_short_str e.options ++ [] := by
    rw [List.append_nil]
    exact hc
  have hrm := remove_matching_shorts short long e.options [] hs.1 hs.2
    (fun c _ hx => by cases hx) (by intro hh; cases hh)
  rw [hsos, hrm]
  constructor
  · show derived_short_str (e.options.filter (fun o => !removal_match short long o)) ++ [] =
      derived_short_str (e.options.filter (fun o => !removal_match short long o))
    rw [List.append_nil]
  · constructor
    · exact (short_letters_filter_sublist _ _).nodup hs.1
    · intro hmem
      exact hs.2 ((short_letters_filter_sublist _ _).mem hmem)

/-- Claim C8 (amended): the short-option string coherence — `short_opt_str`
equals, in insertion order, the concatenation of the short letter plus
(colon if NO_COMMON) over the options that have a short letter — is an
invariant of the store operations provided no schema ever holds two options
with the same short letter and no short letter is the colon character; add
appends the letter's block, and remove splices it out exactly. -/
theorem claim_C8 (st : comp_store) (op : store_op)
    (hinv : store_short_inv st) (hok : op_keeps_shorts_ok st op) :
    store_short_inv (apply_op st op) := by
  cases op with
  | op_add cmd p short long old mode cond comp desc flags =>
    intro x hx
    have hget : ∀ y ∈ (store_get_or_create st cmd p).entries,
        (entry_coherent y ∧ entry_shorts_ok y) ∧
          (key_match y cmd p = true → short = nulChar ∨
            (short ≠ ':' ∧ short ∉ short_letters y.options)) := by
      intro y hy
      unfold store_get_or_create at hy
      cases hf : complete_find_entry st.entries cmd p with
      | some e2 =>
        rw [hf] at hy
        refine ⟨hinv y hy, fun _ => ?_⟩
        cases hok with
        | inl habs => exact Or.inl habs
        | inr hfr => exact Or.inr ⟨hfr.1, hfr.2 y hy (by assumption)⟩
      | none =>
        rw [hf] at hy
        cases insert_entry_mem.mp hy with
        | inl he =>
          subst he
          refine ⟨⟨rfl, List.nodup_nil, fun h => ?_⟩, fun _ => ?_⟩
          · cases h
          · cases hok with
            | inl habs => exact Or.inl habs
            | inr hfr =>
              refine Or.inr ⟨hfr.1, fun h => ?_⟩
              cases h
        | inr hm =>
          refine ⟨hinv y hm, fun _ => ?_⟩
          cases hok with
          | inl habs => exact Or.inl habs
          | inr hfr => exact Or.inr ⟨hfr.1, hfr.2 y hm (by assumption)⟩
    refine update_first_forall cmd p _ (store_get_or_create st cmd p).entries
      (fun y hy => (hget y hy).1) ?_ x hx
    intro y hy hk hy2
    exact entry_add_option_inv short mode long old cond comp desc flags y hy2.1 hy2.2
      ((hget y hy).2 hk)
  | op_remove cmd p short long =>
    intro x hx
    refine remove_in_entries_forall cmd p short long st.entries
      (fun y hy => hinv y hy) ?_ x hx
    intro y hy hk hy2 hre
    have hnb : ¬ (short = nulChar ∧ long = none) := by
      intro hb
      unfold remove_option_entry at hre
      rw [if_pos hb] at hre
      cases hre
    exact remove_option_entry_inv y short long hy2.1 hy2.2 hnb
  | op_set_auth cmd p auth =>
    intro x hx
    have hget : ∀ y ∈ (store_get_or_create st cmd p).entries,
        entry_coherent y ∧ entry_shorts_ok y := by
      intro y hy
      unfold store_get_or_create at hy
      cases hf : complete_find_entry st.entries cmd p with
      | some e2 =>
        rw [hf] at hy
        exact hinv y hy
      | none =>
        rw [hf] at hy
        cases insert_entry_mem.mp hy with
        | inl he =>
          subst he
          exact ⟨rfl, List.nodup_nil, fun h => by cases h⟩
        | inr hm => exact hinv y hm
    refine update_first_forall cmd p _ (store_get_or_create st cmd p).entries hget
      ?_ x hx
    intro y _ _ hy2
    exact hy2

theorem claim_C8_witness :
    store_short_inv c8w_store ∧ op_keeps_shorts_ok c8w_store c8w_op ∧
      store_short_inv (apply_op c8w_store c8w_op) := by
  have h1 : store_short_inv c8w_store := by
    intro e he
    have he2 : e = c8w_entry := by simpa [c8w_store] using he
    subst he2
    exact ⟨rfl, by decide, by decide⟩
  have h2 : op_keeps_shorts_ok c8w_store c8w_op := by
    show ('b' : Char) = nulChar ∨ _
    refine Or.inr ⟨by decide, ?_⟩
    intro e he _
    have he2 : e = c8w_entry := by simpa [c8w_store] using he
    subst he2
    decide
  exact ⟨h1, h2, claim_C8 c8w_store c8w_op h1 h2⟩

theorem claim_C9_counterexample :
    complete_print_m [c9_entry_old] = complete_print_m [c9_entry_new] ∧
      c9_entry_old.options ≠ c9_entry_new.options := by
  exact ⟨rfl, by decide⟩

lemma strip_lead_cons (a : Char) (p s : WStr) :
    strip_lead (a :: p) (a :: s) = strip_lead p s := by
  simp [strip_lead, List.isPrefixOf]

lemma strip_lead_ne {a b : Char} (p s : WStr) (h : a ≠ b) :
    strip_lead (a :: p) (b :: s) = none := by
  simp [strip_lead, List.isPrefixOf, h]

lemma strip_lead_append (p s : WStr) : strip_lead p (p ++ s) = some s := by
  induction p with
  | nil => simp [strip_lead, List.isPrefixOf]
  | cons a p ih =>
    rw [List.cons_append, strip_lead_cons]
    exact ih

lemma strip_lead_dash3 {a b : Char} (p t : WStr) (h : a ≠ b) :
    strip_lead (' ' :: '-' :: '-' :: a :: p) (' ' :: '-' :: '-' :: b :: t) = none := by
  rw [strip_lead_cons, strip_lead_cons, strip_lead_cons]
  exact strip_lead_ne p t h

lemma seg_head_ok_cons {x : Char} {allowed : List Char} (t : WStr) (hx : x ∈ allowed) :
    seg_head_ok allowed (' ' :: '-' :: '-' :: x :: t) :=
  Or.inr ⟨x, hx, t, rfl⟩

lemma seg_head_ok_weaken {A B : List Char} {s : WStr} (h : seg_head_ok A s)
    (hAB : ∀ x ∈ A, x ∈ B) : seg_head_ok B s := by
  cases h with
  | inl h => exact Or.inl h
  | inr h =>
    obtain ⟨x, hx, t, ht⟩ := h
    exact Or.inr ⟨x, hAB x hx, t, ht⟩

lemma seg_head_ok_nl {allowed : List Char} (t : WStr) :
    seg_head_ok allowed (nlChar :: t) := Or.inl rfl

lemma strip_lead_seg {allowed : List Char} {s : WStr} (a : Char) (p : WStr)
    (hs : seg_head_ok allowed s) (ha : a ∉ allowed) :
    strip_lead (' ' :: '-' :: '-' :: a :: p) s = none := by
  cases hs with
  | inl h =>
    cases s with
    | nil => simp at h
    | cons c t =>
      have hc : c = nlChar := by simpa using h
      subst hc
      exact strip_lead_ne _ _ (by decide)
  | inr h =>
    obtain ⟨x, hx, t, ht⟩ := h
    subst ht
    refine strip_lead_dash3 _ _ ?_
    intro he
    exact ha (he ▸ hx)

lemma parse_quoted_body_escape (v rest : WStr) :
    parse_quoted_body
      ((v.flatMap (fun c => if c = quoteChar ∨ c = bslashChar then [bslashChar, c] else [c])) ++
        quoteChar :: rest) = some (v, rest) := by
  induction v with
  | nil =>
    rw [List.flatMap_nil, List.nil_append, parse_quoted_body.eq_def]
    simp
  | cons c v ih =>
    have hbq : ¬ (bslashChar = quoteChar) := by decide
    by_cases hc : c = quoteChar ∨ c = bslashChar
    · rw [List.flatMap_cons, if_pos hc, List.cons_append, List.cons_append,
        parse_quoted_body.eq_def]
      simp [hbq, ih]
    · have h1 : ¬ (c = quoteChar) := fun h => hc (Or.inl h)
      have h2 : ¬ (c = bslashChar) := fun h => hc (Or.inr h)
      rw [List.flatMap_cons, if_neg hc, List.singleton_append, parse_quoted_body.eq_def]
      simp [h1, h2, ih]

lemma parse_quoted_escape (v rest : WStr) :
    parse_quoted (escape_str v ++ rest) = some (v, rest) := by
  have h1 : escape_str v ++ rest =
      quoteChar :: ((v.flatMap (fun c => if c = quoteChar ∨ c = bslashChar
        then [bslashChar, c] else [c])) ++ (quoteChar :: rest)) := by
    simp [escape_str]
  rw [h1]
  simp only [parse_quoted]
  rw [if_pos trivial]
  exact parse_quoted_body_escape v rest

lemma parse_opt_val (name v rest : WStr) :
    parse_opt_switch name (name ++ (escape_str v ++ rest)) = some (some v, rest) := by
  simp only [parse_opt_switch, strip_lead_append, parse_quoted_escape]
  rfl

lemma parse_opt_absent (name : WStr) {s : WStr} (h : strip_lead name s = none) :
    parse_opt_switch name s = some (none, s) := by
  simp only [parse_opt_switch, h]

lemma parse_short_present (c : Char) (rest : WStr) :
    parse_short_switch (" --short-option ".data ++ (quoteChar :: c :: quoteChar :: rest)) =
      some (c, rest) := by
  simp only [parse_short_switch, strip_lead_append]
  simp

lemma parse_short_absent {s : WStr} (h : strip_lead " --short-option ".data s = none) :
    parse_short_switch s = some (nulChar, s) := by
  simp only [parse_short_switch, h]

lemma parse_long_old (v rest : WStr) :
    parse_long_switch (" --old-option ".data ++ (escape_str v ++ rest)) =
      some ((true, some v), rest) := by
  simp only [parse_long_switch, strip_lead_append, parse_quoted_escape]
  rfl

lemma parse_long_new (v rest : WStr) :
    parse_long_switch (" --long-option ".data ++ (escape_str v ++ rest)) =
      some ((false, some v), rest) := by
  have hfail : strip_lead " --old-option ".data
      (" --long-option ".data ++ (escape_str v ++ rest)) = none := by
    rw [show " --old-option ".data = ' ' :: '-' :: '-' :: 'o' :: "ld-option ".data from rfl,
        show " --long-option ".data ++ (escape_str v ++ rest) =
          ' ' :: '-' :: '-' :: 'l' :: ("ong-option ".data ++ (escape_str v ++ rest)) from rfl]
    exact strip_lead_dash3 _ _ (by decide)
  simp only [parse_long_switch, hfail, strip_lead_append, parse_quoted_escape]
  rfl

lemma parse_long_absent {allowed : List Char} {s : WStr} (hs : seg_head_ok allowed s)
    (ho : 'o' ∉ allowed) (hl : 'l' ∉ allowed) :
    parse_long_switch s = some ((false, none), s) := by
  have h1 : strip_lead " --old-option ".data s = none := by
    rw [show " --old-option ".data = ' ' :: '-' :: '-' :: 'o' :: "ld-option ".data from rfl]
    exact strip_lead_seg _ _ hs ho
  have h2 : strip_lead " --long-option ".data s = none := by
    rw [show " --long-option ".data = ' ' :: '-' :: '-' :: 'l' :: "ong-option ".data from rfl]
    exact strip_lead_seg _ _ hs hl
  simp only [parse_long_switch, h1, h2]

lemma parse_cmd_path (v rest : WStr) :
    parse_cmd_switch (" --path ".data ++ (escape_str v ++ rest)) = some ((true, v), rest) := by
  simp only [parse_cmd_switch, strip_lead_append, parse_quoted_escape]
  rfl

lemma parse_cmd_command (v rest : WStr) :
    parse_cmd_switch (" --command ".data ++ (escape_str v ++ rest)) =
      some ((false, v), rest) := by
  have hfail : strip_lead " --path ".data
      (" --command ".data ++ (escape_str v ++ rest)) = none := by
    rw [show " --path ".data = ' ' :: '-' :: '-' :: 'p' :: "ath ".data from rfl,
        show " --command ".data ++ (escape_str v ++ rest) =
          ' ' :: '-' :: '-' :: 'c' :: ("ommand ".data ++ (escape_str v ++ rest)) from rfl]
    exact strip_lead_dash3 _ _ (by decide)
  simp only [parse_cmd_switch, hfail, strip_lead_append, parse_quoted_escape]
  rfl

lemma parse_mode_zero (x : Char) (t : WStr) (hn : x ≠ 'n') (hr : x ≠ 'r') (he : x ≠ 'e') :
    parse_mode (' ' :: '-' :: '-' :: x :: t) = (0, ' ' :: '-' :: '-' :: x :: t) := by
  have h1 : strip_lead " --no-files".data (' ' :: '-' :: '-' :: x :: t) = none := by
    rw [show " --no-files".data = ' ' :: '-' :: '-' :: 'n' :: "o-files".data from rfl]
    exact strip_lead_dash3 _ _ (fun h => hn h.symm)
  have h2 : strip_lead " --require-parameter".data (' ' :: '-' :: '-' :: x :: t) = none := by
    rw [show " --require-parameter".data =
      ' ' :: '-' :: '-' :: 'r' :: "equire-parameter".data from rfl]
    exact strip_lead_dash3 _ _ (fun h => hr h.symm)
  have h3 : strip_lead " --exclusive".data (' ' :: '-' :: '-' :: x :: t) = none := by
    rw [show " --exclusive".data = ' ' :: '-' :: '-' :: 'e' :: "xclusive".data from rfl]
    exact strip_lead_dash3 _ _ (fun h => he h.symm)
  simp only [parse_mode, h1, h2, h3]

lemma parse_mode_tbl (m : Nat) (hm : m < 4) (x : Char) (t : WStr)
    (hx : x = 'p' ∨ x = 'c') :
    parse_mode (modestr m ++ (' ' :: '-' :: '-' :: x :: t)) =
      (m, ' ' :: '-' :: '-' :: x :: t) := by
  have hxn : x ≠ 'n' := by rcases hx with h | h <;> subst h <;> decide
  have hxr : x ≠ 'r' := by rcases hx with h | h <;> subst h <;> decide
  have hxe : x ≠ 'e' := by rcases hx with h | h <;> subst h <;> decide
  rcases m with _ | _ | _ | _ | m
  · rw [show modestr 0 = [] from rfl, List.nil_append]
    exact parse_mode_zero x t hxn hxr hxe
  · rw [show modestr 1 = " --no-files".data from rfl]
    simp only [parse_mode, strip_lead_append]
  · rw [show modestr 2 = " --require-parameter".data from rfl]
    have h1 : strip_lead " --no-files".data
        (" --require-parameter".data ++ (' ' :: '-' :: '-' :: x :: t)) = none := by
      rw [show " --no-files".data = ' ' :: '-' :: '-' :: 'n' :: "o-files".data from rfl,
          show " --require-parameter".data ++ (' ' :: '-' :: '-' :: x :: t) =
            ' ' :: '-' :: '-' :: 'r' ::
              ("equire-parameter".data ++ (' ' :: '-' :: '-' :: x :: t)) from rfl]
      exact strip_lead_dash3 _ _ (by decide)
    simp only [parse_mode, h1, strip_lead_append]
  · rw [show modestr 3 = " --exclusive".data from rfl]
    have h1 : strip_lead " --no-files".data
        (" --exclusive".data ++ (' ' :: '-' :: '-' :: x :: t)) = none := by
      rw [show " --no-files".data = ' ' :: '-' :: '-' :: 'n' :: "o-files".data from rfl,
          show " --exclusive".data ++ (' ' :: '-' :: '-' :: x :: t) =
            ' ' :: '-' :: '-' :: 'e' ::
              ("xclusive".data ++ (' ' :: '-' :: '-' :: x :: t)) from rfl]
      exact strip_lead_dash3 _ _ (by decide)
    have h2 : strip_lead " --require-parameter".data
        (" --exclusive".data ++ (' ' :: '-' :: '-' :: x :: t)) = none := by
      rw [show " --require-parameter".data =
            ' ' :: '-' :: '-' :: 'r' :: "equire-parameter".data from rfl,
          show " --exclusive".data ++ (' ' :: '-' :: '-' :: x :: t) =
            ' ' :: '-' :: '-' :: 'e' ::
              ("xclusive".data ++ (' ' :: '-' :: '-' :: x :: t)) from rfl]
      exact strip_lead_dash3 _ _ (by decide)
    simp only [parse_mode, h1, h2, strip_lead_append]
  · exact absurd hm (by omega)

lemma append_switch_cmd (out : WStr) (e : completion_entry_t) :
    append_switch out (if e.cmd_is_path then "path".data else "command".data) e.cmd =
      out ++ seg_cmd e := by
  unfold append_switch seg_cmd
  split_ifs <;> simp [List.append_assoc] <;> rfl

lemma print_short_seg (out : WStr) (o : complete_entry_opt_t) :
    (if o.short_opt ≠ nulChar then
        out ++ " --short-option ".data ++ [quoteChar, o.short_opt, quoteChar]
      else out) = out ++ seg_short o := by
  rcases eq_or_ne o.short_opt nulChar with h | h <;>
    simp [seg_short, h, List.append_assoc]

lemma append_switch_long (out : WStr) (o : complete_entry_opt_t) :
    append_switch out (if o.old_mode then "old-option".data else "long-option".data)
        o.long_opt = out ++ seg_long o := by
  unfold append_switch seg_long
  split_ifs <;> simp [List.append_assoc] <;> rfl

lemma append_switch_val (out opt name v : WStr)
    (hname : name = " --".data ++ (opt ++ [' '])) :
    append_switch out opt v = out ++ seg_val name v := by
  subst hname
  unfold append_switch seg_val
  split_ifs <;> simp [List.append_assoc]

lemma print_opt_line_eq (e : completion_entry_t) (o : complete_entry_opt_t) :
    print_opt_line e o =
      "complete".data ++ (modestr o.result_mode ++ (seg_cmd e ++ (seg_short o ++
        (seg_long o ++ (seg_val " --description ".data o.desc ++
          (seg_val " --arguments ".data o.comp ++
            (seg_val " --condition ".data o.condition ++ [nlChar]))))))) := by
  simp only [print_opt_line]
  rw [append_switch_cmd, print_short_seg, append_switch_long,
      append_switch_val _ _ " --condition ".data _ rfl,
      append_switch_val _ _ " --arguments ".data _ rfl,
      append_switch_val _ _ " --description ".data _ rfl]
  simp [List.append_assoc]

lemma seg_cmd_some {e : completion_entry_t} (h : e.cmd ≠ []) :
    seg_cmd e = (if e.cmd_is_path then " --path ".data else " --command ".data) ++
      escape_str e.cmd := by
  unfold seg_cmd
  rw [if_neg h]

lemma seg_short_nil {o : complete_entry_opt_t} (h : o.short_opt = nulChar) :
    seg_short o = [] := by
  unfold seg_short
  rw [if_pos h]

lemma seg_short_y {o : complete_entry_opt_t} (h : ¬ (o.short_opt = nulChar)) :
    seg_short o = " --short-option ".data ++ [quoteChar, o.short_opt, quoteChar] := by
  unfold seg_short
  rw [if_neg h]

lemma seg_long_nil {o : complete_entry_opt_t} (h : o.long_opt = []) :
    seg_long o = [] := by
  unfold seg_long
  rw [if_pos h]

lemma seg_long_y {o : complete_entry_opt_t} (h : ¬ (o.long_opt = [])) :
    seg_long o = (if o.old_mode then " --old-option ".data else " --long-option ".data) ++
      escape_str o.long_opt := by
  unfold seg_long
  rw [if_neg h]

lemma seg_val_nil (name : WStr) {v : WStr} (h : v = []) : seg_val name v = [] := by
  unfold seg_val
  rw [if_pos h]

lemma seg_val_y (name : WStr) {v : WStr} (h : ¬ (v = [])) :
    seg_val name v = name ++ escape_str v := by
  unfold seg_val
  rw [if_neg h]

lemma seg_head_ok_lit {allowed : List Char} (a : Char) (p X : WStr) (ha : a ∈ allowed) :
    seg_head_ok allowed ((' ' :: '-' :: '-' :: a :: p) ++ X) := by
  rw [List.cons_append, List.cons_append, List.cons_append, List.cons_append]
  exact seg_head_ok_cons _ ha

lemma parse_mode_path (m : Nat) (hm : m < 4) (w X : WStr) :
    parse_mode (modestr m ++ ((" --path ".data ++ w) ++ X)) =
      (m, (" --path ".data ++ w) ++ X) := by
  have h : (" --path ".data ++ w) ++ X =
      ' ' :: '-' :: '-' :: 'p' :: ("ath ".data ++ (w ++ X)) := by
    rw [List.append_assoc]
    rfl
  rw [h]
  exact parse_mode_tbl m hm 'p' _ (Or.inl rfl)

lemma parse_mode_command (m : Nat) (hm : m < 4) (w X : WStr) :
    parse_mode (modestr m ++ ((" --command ".data ++ w) ++ X)) =
      (m, (" --command ".data ++ w) ++ X) := by
  have h : (" --command ".data ++ w) ++ X =
      ' ' :: '-' :: '-' :: 'c' :: ("ommand ".data ++ (w ++ X)) := by
    rw [List.append_assoc]
    rfl
  rw [h]
  exact parse_mode_tbl m hm 'c' _ (Or.inr rfl)

lemma parse_mode_seg (m : Nat) (hm : m < 4) (e : completion_entry_t)
    (hcmd : e.cmd ≠ []) (X : WStr) :
    parse_mode (modestr m ++ (seg_cmd e ++ X)) = (m, seg_cmd e ++ X) := by
  rw [seg_cmd_some hcmd]
  by_cases hp : e.cmd_is_path
  · rw [if_pos hp]
    exact parse_mode_path m hm (escape_str e.cmd) X
  · rw [if_neg hp]
    exact parse_mode_command m hm (escape_str e.cmd) X

lemma parse_cmdseg (e : completion_entry_t) (hcmd : e.cmd ≠ []) (X : WStr) :
    parse_cmd_switch (seg_cmd e ++ X) = some ((e.cmd_is_path, e.cmd), X) := by
  rw [seg_cmd_some hcmd]
  by_cases hp : e.cmd_is_path
  · rw [if_pos hp, List.append_assoc, hp]
    exact parse_cmd_path e.cmd X
  · have hp2 : e.cmd_is_path = false := by
      cases h : e.cmd_is_path
      · rfl
      · exact absurd h hp
    rw [if_neg hp, List.append_assoc, hp2]
    exact parse_cmd_command e.cmd X

lemma parse_short_seg (o : complete_entry_opt_t) {allowed : List Char} {X : WStr}
    (hX : seg_head_ok allowed X) (hs : 's' ∉ allowed) :
    parse_short_switch (seg_short o ++ X) = some (o.short_opt, X) := by
  by_cases h : o.short_opt = nulChar
  · rw [seg_short_nil h, List.nil_append, h]
    refine parse_short_absent ?_
    rw [show " --short-option ".data = ' ' :: '-' :: '-' :: 's' :: "hort-option ".data from rfl]
    exact strip_lead_seg _ _ hX hs
  · rw [seg_short_y h, List.append_assoc,
      show [quoteChar, o.short_opt, quoteChar] ++ X =
        quoteChar :: o.short_opt :: quoteChar :: X from rfl]
    exact parse_short_present o.short_opt X

lemma parse_long_seg (o : complete_entry_opt_t) {allowed : List Char} {X : WStr}
    (hX : seg_head_ok allowed X) (ho : 'o' ∉ allowed) (hl : 'l' ∉ allowed) :
    parse_long_switch (seg_long o ++ X) =
      some ((if o.long_opt = [] then false else o.old_mode,
             if o.long_opt = [] then none else some o.long_opt), X) := by
  by_cases h : o.long_opt = []
  · rw [seg_long_nil h, List.nil_append, if_pos h, if_pos h]
    exact parse_long_absent hX ho hl
  · rw [seg_long_y h, if_neg h, if_neg h]
    by_cases hom : o.old_mode
    · rw [if_pos hom, List.append_assoc, hom]
      exact parse_long_old o.long_opt X
    · have hom2 : o.old_mode = false := by
        cases hb : o.old_mode
        · rfl
        · exact absurd hb hom
      rw [if_neg hom, List.append_assoc, hom2]
      exact parse_long_new o.long_opt X

lemma parse_val_seg (name v : WStr) (a : Char) (p : WStr) {allowed : List Char}
    {X : WStr} (hname : name = ' ' :: '-' :: '-' :: a :: p) (ha : a ∉ allowed)
    (hX : seg_head_ok allowed X) :
    parse_opt_switch name (seg_val name v ++ X) =
      some ((if v = [] then none else some v), X) := by
  by_cases h : v = []
  · rw [seg_val_nil name h, List.nil_append, if_pos h]
    refine parse_opt_absent name ?_
    rw [hname]
    exact strip_lead_seg _ _ hX ha
  · rw [seg_val_y name h, if_neg h, List.append_assoc]
    exact parse_opt_val name v X

lemma parse_print_line (e : completion_entry_t) (o : complete_entry_opt_t) (rest : WStr)
    (hcmd : e.cmd ≠ []) (hmode : o.result_mode < 4) :
    parse_complete_line (print_opt_line e o ++ rest) = some (parsed_of e o, rest) := by
  have hC : seg_head_ok ['c'] (seg_val " --condition ".data o.condition ++ nlChar :: rest) := by
    by_cases h : o.condition = []
    · rw [seg_val_nil _ h, List.nil_append]
      exact seg_head_ok_nl rest
    · rw [seg_val_y _ h, List.append_assoc,
        show " --condition ".data = ' ' :: '-' :: '-' :: 'c' :: "ondition ".data from rfl]
      exact seg_head_ok_lit 'c' _ _ (by decide)
  have hA : seg_head_ok ['a', 'c'] (seg_val " --arguments ".data o.comp ++
      (seg_val " --condition ".data o.condition ++ nlChar :: rest)) := by
    by_cases h : o.comp = []
    · rw [seg_val_nil _ h, List.nil_append]
      exact seg_head_ok_weaken hC (by decide)
    · rw [seg_val_y _ h, List.append_assoc,
        show " --arguments ".data = ' ' :: '-' :: '-' :: 'a' :: "rguments ".data from rfl]
      exact seg_head_ok_lit 'a' _ _ (by decide)
  have hD : seg_head_ok ['d', 'a', 'c'] (seg_val " --description ".data o.desc ++
      (seg_val " --arguments ".data o.comp ++
        (seg_val " --condition ".data o.condition ++ nlChar :: rest))) := by
    by_cases h : o.desc = []
    · rw [seg_val_nil _ h, List.nil_append]
      exact seg_head_ok_weaken hA (by decide)
    · rw [seg_val_y _ h, List.append_assoc,
        show " --description ".data = ' ' :: '-' :: '-' :: 'd' :: "escription ".data from rfl]
      exact seg_head_ok_lit 'd' _ _ (by decide)
  have hL : seg_head_ok ['o', 'l', 'd', 'a', 'c'] (seg_long o ++
      (seg_val " --description ".data o.desc ++
        (seg_val " --arguments ".data o.comp ++
          (seg_val " --condition ".data o.condition ++ nlChar :: rest)))) := by
    by_cases h : o.long_opt = []
    · rw [seg_long_nil h, List.nil_append]
      exact seg_head_ok_weaken hD (by decide)
    · rw [seg_long_y h]
      by_cases hom : o.old_mode
      · rw [if_pos hom, List.append_assoc,
          show " --old-option ".data = ' ' :: '-' :: '-' :: 'o' :: "ld-option ".data from rfl]
        exact seg_head_ok_lit 'o' _ _ (by decide)
      · rw [if_neg hom, List.append_assoc,
          show " --long-option ".data = ' ' :: '-' :: '-' :: 'l' :: "ong-option ".data from rfl]
        exact seg_head_ok_lit 'l' _ _ (by decide)
  have htext : print_opt_line e o ++ rest =
      "complete".data ++ (modestr o.result_mode ++ (seg_cmd e ++ (seg_short o ++
        (seg_long o ++ (seg_val " --description ".data o.desc ++
          (seg_val " --arguments ".data o.comp ++
            (seg_val " --condition ".data o.condition ++ nlChar :: rest))))))) := by
    rw [print_opt_line_eq]
    simp [List.append_assoc]
  rw [htext]
  simp only [parse_complete_line, strip_lead_append,
    parse_mode_seg o.result_mode hmode e hcmd,
    parse_cmdseg e hcmd,
    parse_short_seg o hL (by decide),
    parse_long_seg o hD (by decide) (by decide),
    parse_val_seg " --description ".data o.desc 'd' "escription ".data rfl (by decide) hA,
    parse_val_seg " --arguments ".data o.comp 'a' "rguments ".data rfl (by decide) hC,
    parse_val_seg " --condition ".data o.condition 'c' "ondition ".data rfl (by decide)
      (@seg_head_ok_nl [] rest)]
  simp [parsed_of]

lemma add_option_fields_parsed (e : completion_entry_t) (o : complete_entry_opt_t)
    (hold : o.old_mode = true → o.long_opt ≠ []) (hf : o.flags = default_flags) :
    add_option_fields (parsed_of e o).short_opt (parsed_of e o).long_opt
      (parsed_of e o).old_mode (parsed_of e o).result_mode (parsed_of e o).condition
      (parsed_of e o).comp (parsed_of e o).desc default_flags = o := by
  have hgetd : ∀ (w : WStr), (if w = [] then (none : Option WStr) else some w).getD [] = w := by
    intro w
    by_cases h : w = [] <;> simp [h]
  have holdv : (if o.long_opt = [] then false else o.old_mode) = o.old_mode := by
    by_cases h : o.long_opt = []
    · rw [if_pos h]
      cases hb : o.old_mode
      · rfl
      · exact absurd h (hold hb)
    · rw [if_neg h]
  rcases o with ⟨s, l, cp, d, cd, m, om, fl⟩
  simp only [add_option_fields, parsed_of] at *
  simp [hgetd, holdv, hf.symm]

lemma entry_add_option_cmd_fields (short : Char) (mode : Nat)
    (opt : complete_entry_opt_t) (x : completion_entry_t) :
    (entry_add_option short mode opt x).cmd = x.cmd ∧
      (entry_add_option short mode opt x).cmd_is_path = x.cmd_is_path ∧
      (entry_add_option short mode opt x).options = opt :: x.options := by
  unfold entry_add_option
  split_ifs <;> simp

lemma apply_parsed_step (e : completion_entry_t) (o : complete_entry_opt_t)
    (hold : o.old_mode = true → o.long_opt ≠ []) (hf : o.flags = default_flags)
    (acc : completion_entry_t) (k : Nat)
    (hk : key_match acc e.cmd e.cmd_is_path = true) :
    apply_parsed (parsed_of e o) { entries := [acc], counter := k } =
      { entries := [entry_add_option o.short_opt o.result_mode o acc], counter := k } := by
  unfold apply_parsed complete_add_store store_get_or_create
  have hfind : complete_find_entry [acc] (parsed_of e o).cmd (parsed_of e o).cmd_is_path =
      some acc := find_entry_cons_pos hk
  have hpc : (parsed_of e o).cmd = e.cmd := rfl
  have hpp : (parsed_of e o).cmd_is_path = e.cmd_is_path := rfl
  have hps : (parsed_of e o).short_opt = o.short_opt := rfl
  have hpm : (parsed_of e o).result_mode = o.result_mode := rfl
  have hopt : add_option_fields o.short_opt (parsed_of e o).long_opt
      (parsed_of e o).old_mode o.result_mode (parsed_of e o).condition
      (parsed_of e o).comp (parsed_of e o).desc default_flags = o :=
    add_option_fields_parsed e o hold hf
  rw [hfind]
  simp only [update_first]
  rw [hpc, hpp, hps, hpm, if_pos hk, hopt]

lemma apply_parsed_first (e : completion_entry_t) (o : complete_entry_opt_t)
    (hold : o.old_mode = true → o.long_opt ≠ []) (hf : o.flags = default_flags) :
    apply_parsed (parsed_of e o) empty_store =
      { entries := [entry_add_option o.short_opt o.result_mode o
          (blank_entry e.cmd e.cmd_is_path 1)],
        counter := 1 } := by
  unfold apply_parsed complete_add_store store_get_or_create empty_store
  have hfind : complete_find_entry [] (parsed_of e o).cmd (parsed_of e o).cmd_is_path =
      none := rfl
  have hpc : (parsed_of e o).cmd = e.cmd := rfl
  have hpp : (parsed_of e o).cmd_is_path = e.cmd_is_path := rfl
  have hps : (parsed_of e o).short_opt = o.short_opt := rfl
  have hpm : (parsed_of e o).result_mode = o.result_mode := rfl
  have hopt : add_option_fields o.short_opt (parsed_of e o).long_opt
      (parsed_of e o).old_mode o.result_mode (parsed_of e o).condition
      (parsed_of e o).comp (parsed_of e o).desc default_flags = o :=
    add_option_fields_parsed e o hold hf
  rw [hfind]
  have hk : key_match (blank_entry e.cmd e.cmd_is_path 1) e.cmd e.cmd_is_path = true := by
    simp [key_match, blank_entry]
  simp only [insert_entry, update_first, Nat.zero_add]
  rw [hpc, hpp, hps, hpm, if_pos hk, hopt]

lemma replay_lines (e : completion_entry_t) (hcmd : e.cmd ≠ []) :
    ∀ (opts : List complete_entry_opt_t),
      (∀ o ∈ opts, (o.old_mode = true → o.long_opt ≠ []) ∧ o.flags = default_flags ∧
        o.result_mode < 4 ∧ o.short_opt ≠ quoteChar ∧ o.short_opt ≠ bslashChar) →
      ∀ (acc : completion_entry_t) (k : Nat),
        key_match acc e.cmd e.cmd_is_path = true →
        ∃ acc2 : completion_entry_t,
          replay_print opts.length { entries := [acc], counter := k }
              ((opts.map (print_opt_line e)).flatten) =
            { entries := [acc2], counter := k } ∧
          acc2.cmd = acc.cmd ∧ acc2.cmd_is_path = acc.cmd_is_path ∧
          acc2.options = opts.reverse ++ acc.options := by
  intro opts
  induction opts with
  | nil =>
    intro _ acc k _
    exact ⟨acc, rfl, rfl, rfl, by simp⟩
  | cons o opts ih =>
    intro hall acc k hk
    have ho := hall o (List.mem_cons_self _ _)
    have hpl : ∀ r, parse_complete_line (print_opt_line e o ++ r) =
        some (parsed_of e o, r) :=
      fun r => parse_print_line e o r hcmd ho.2.2.1
    have happ := apply_parsed_step e o ho.1 ho.2.1 acc k hk
    have hfields := entry_add_option_cmd_fields o.short_opt o.result_mode o acc
    simp only [List.map_cons, List.flatten_cons, List.length_cons, replay_print, hpl, happ]
    have hk2 : key_match (entry_add_option o.short_opt o.result_mode o acc)
        e.cmd e.cmd_is_path = true := by
      unfold key_match at hk ⊢
      rw [hfields.1, hfields.2.1]
      exact hk
    obtain ⟨acc2, h1, h2, h3, h4⟩ := ih (fun x hx => hall x (List.mem_cons_of_mem _ hx))
      (entry_add_option o.short_opt o.result_mode o acc) k hk2
    refine ⟨acc2, h1, ?_, ?_, ?_⟩
    · rw [h2, hfields.1]
    · rw [h3, hfields.2.1]
    · rw [h4, hfields.2.2]
      simp [List.reverse_cons, List.append_assoc]

/-- Claim C9 (amended): for every schema whose command is non-empty and whose
options are all printable — an old-mode option has a long name (otherwise the
printer drops the distinction), presentation flags are clear (the printed
format does not carry them), the result mode is inside the mode table, and
the short letter is not a quoting character — replaying the text
`complete_print` emits for that schema against the empty store rebuilds a
schema for the same key whose option list is a permutation of the original
with every field of every option reproduced.  (The unconditional claim is
refuted by the counterexample: two schemas differing in `old_mode` print
identically when the long option is empty, so no replay can restore both.) -/
theorem claim_C9 (e : completion_entry_t) (hrt : entry_roundtrip_ok e)
    (hne : e.options ≠ []) :
    ∃ e2 : completion_entry_t,
      (replay_print e.options.length empty_store (complete_print_m [e])).entries = [e2] ∧
        e2.cmd = e.cmd ∧ e2.cmd_is_path = e.cmd_is_path ∧ e2.options.Perm e.options := by
  obtain ⟨hcmd, hall⟩ := hrt
  have hprint : complete_print_m [e] = (e.options.map (print_opt_line e)).flatten := by
    simp [complete_print_m, sort_by_order, insert_by_order]
  rw [hprint]
  obtain ⟨o0, rest, hopts⟩ : ∃ o0 rest, e.options = o0 :: rest := by
    cases h : e.options with
    | nil => exact absurd h hne
    | cons a b => exact ⟨a, b, rfl⟩
  rw [hopts]
  have ho0 := hall o0 (by rw [hopts]; exact List.mem_cons_self _ _)
  have hpl : ∀ r, parse_complete_line (print_opt_line e o0 ++ r) =
      some (parsed_of e o0, r) :=
    fun r => parse_print_line e o0 r hcmd ho0.2.2.1
  have happ := apply_parsed_first e o0 ho0.1 ho0.2.1
  have hfb := entry_add_option_cmd_fields o0.short_opt o0.result_mode o0
    (blank_entry e.cmd e.cmd_is_path 1)
  simp only [List.map_cons, List.flatten_cons, List.length_cons, replay_print, hpl, happ]
  have hk : key_match (entry_add_option o0.short_opt o0.result_mode o0
      (blank_entry e.cmd e.cmd_is_path 1)) e.cmd e.cmd_is_path = true := by
    unfold key_match
    rw [hfb.1, hfb.2.1]
    simp [blank_entry]
  obtain ⟨acc2, h1, h2, h3, h4⟩ := replay_lines e hcmd rest
    (fun x hx => hall x (by rw [hopts]; exact List.mem_cons_of_mem _ hx))
    (entry_add_option o0.short_opt o0.result_mode o0 (blank_entry e.cmd e.cmd_is_path 1))
    1 hk
  refine ⟨acc2, ?_, ?_, ?_, ?_⟩
  · rw [h1]
  · rw [h2, hfb.1]
    rfl
  · rw [h3, hfb.2.1]
    rfl
  · rw [h4, hfb.2.2]
    have hrw : rest.reverse ++ o0 :: (blank_entry e.cmd e.cmd_is_path 1).options =
        (o0 :: rest).reverse := by
      simp [blank_entry, List.reverse_cons]
    rw [hrw]
    exact List.reverse_perm _

theorem claim_C9_witness :
    entry_roundtrip_ok c9w_entry ∧ c9w_entry.options ≠ [] ∧
      ∃ e2 : completion_entry_t,
        (replay_print c9w_entry.options.length empty_store
            (complete_print_m [c9w_entry])).entries = [e2] ∧
          e2.cmd = c9w_entry.cmd ∧ e2.cmd_is_path = c9w_entry.cmd_is_path ∧
          e2.options.Perm c9w_entry.options := by
  have h1 : entry_roundtrip_ok c9w_entry := by
    constructor
    · decide
    · intro o ho
      have ho2 : o = c9w_opt1 ∨ o = c9w_opt2 := by simpa [c9w_entry] using ho
      rcases ho2 with h | h <;> subst h <;>
        exact ⟨by decide, by decide, by decide, by decide, by decide⟩
  have h2 : c9w_entry.options ≠ [] := by decide
  exact ⟨h1, h2, claim_C9 c9w_entry h1 h2⟩
